import Mathlib

/-!
Verification of the opening-graph engine of the chess-openings repository.

The JavaScript source (`js/fen-utils.js` together with the shared graph code)
is embedded shallowly: JS strings are Lean `String`s, `String.split(c)` is
modelled by `splitOnChar` on the underlying character list, JS `Map`s are
modelled as association lists with JS `Map` get/set/delete semantics, and the
mutable global graph state is threaded explicitly through a `GraphState`
record.  The external chess engine (chess.js) and `parseFloat` are external
capabilities and appear as oracle parameters, as the repository treats them.
-/

namespace ChessOpenings

/-! ### JS string splitting and joining

`s.split(c)` in JavaScript (with a one-character separator) cuts at every
occurrence of the character and keeps empty pieces; `parts.join(c)` is its
inverse on piece lists.  We model both on `List Char`.
-/

/-- JS `String.prototype.split` with a single-character separator,
on the underlying character list. -/
def splitOnChar (c : Char) : List Char → List (List Char)
  | [] => [[]]
  | ch :: rest =>
    if ch = c then
      [] :: splitOnChar c rest
    else
      match splitOnChar c rest with
      | [] => [[ch]]
      | h :: t => (ch :: h) :: t

theorem splitOnChar_nil (c : Char) : splitOnChar c [] = [[]] := rfl

theorem splitOnChar_cons (c ch : Char) (rest : List Char) :
    splitOnChar c (ch :: rest) =
      if ch = c then [] :: splitOnChar c rest
      else
        match splitOnChar c rest with
        | [] => [[ch]]
        | h :: t => (ch :: h) :: t := rfl

/-- JS `Array.prototype.join` with a single-character separator. -/
def joinChar (c : Char) : List (List Char) → List Char
  | [] => []
  | [x] => x
  | x :: xs => x ++ c :: joinChar c xs

/-- JS `String.prototype.split` at the `String` level. -/
def jsSplit (s : String) (c : Char) : List String :=
  (splitOnChar c s.data).map String.mk

/-- JS `Array.prototype.join` at the `String` level. -/
def jsJoin (c : Char) (parts : List String) : String :=
  String.mk (joinChar c (parts.map String.data))

theorem splitOnChar_ne_nil (c : Char) (l : List Char) : splitOnChar c l ≠ [] := by
  induction l with
  | nil => simp [splitOnChar_nil]
  | cons ch rest ih =>
    rw [splitOnChar_cons]
    split
    · simp
    · rcases h : splitOnChar c rest with _ | ⟨hd, tl⟩
      · exact absurd h ih
      · simp

theorem jsSplit_ne_nil (s : String) (c : Char) : jsSplit s c ≠ [] := by
  unfold jsSplit
  intro h
  exact splitOnChar_ne_nil c s.data (by simpa using h)

theorem not_mem_of_mem_splitOnChar (c : Char) (l : List Char) :
    ∀ p ∈ splitOnChar c l, c ∉ p := by
  induction l with
  | nil =>
    intro p hp
    rw [splitOnChar_nil] at hp
    simp at hp
    simp [hp]
  | cons ch rest ih =>
    intro p hp
    rw [splitOnChar_cons] at hp
    by_cases hc : ch = c
    · rw [if_pos hc] at hp
      rcases List.mem_cons.mp hp with hp | hp
      · simp [hp]
      · exact ih p hp
    · rw [if_neg hc] at hp
      rcases h : splitOnChar c rest with _ | ⟨hd, tl⟩
      · exact absurd h (splitOnChar_ne_nil c rest)
      · rw [h] at hp
        rcases List.mem_cons.mp hp with hp | hp
        · subst hp
          have hhd : c ∉ hd := ih hd (by rw [h]; exact List.mem_cons_self _ _)
          intro hmem
          rcases List.mem_cons.mp hmem with h1 | h1
          · exact hc h1.symm
          · exact hhd h1
        · exact ih p (by rw [h]; exact List.mem_cons_of_mem _ hp)

theorem splitOnChar_of_not_mem (c : Char) (l : List Char) (h : c ∉ l) :
    splitOnChar c l = [l] := by
  induction l with
  | nil => simp [splitOnChar_nil]
  | cons ch rest ih =>
    rw [splitOnChar_cons]
    have hch : ¬ ch = c := fun hc => h (by simp [hc])
    rw [if_neg hch, ih (fun hm => h (List.mem_cons_of_mem _ hm))]

theorem splitOnChar_append_cons (c : Char) (x rest : List Char) (hx : c ∉ x) :
    splitOnChar c (x ++ c :: rest) = x :: splitOnChar c rest := by
  induction x with
  | nil => simp [splitOnChar_cons]
  | cons ch x' ih =>
    have hch : ¬ ch = c := fun hc => hx (by simp [hc])
    have hx' : c ∉ x' := fun hm => hx (List.mem_cons_of_mem _ hm)
    rw [List.cons_append, splitOnChar_cons, if_neg hch, ih hx']

theorem splitOnChar_joinChar (c : Char) (ps : List (List Char)) (hne : ps ≠ [])
    (hfree : ∀ p ∈ ps, c ∉ p) :
    splitOnChar c (joinChar c ps) = ps := by
  induction ps with
  | nil => exact absurd rfl hne
  | cons x xs ih =>
    match xs with
    | [] =>
      simp only [joinChar]
      exact splitOnChar_of_not_mem c x (hfree x (List.mem_cons_self _ _))
    | y :: t =>
      have hx : c ∉ x := hfree x (List.mem_cons_self _ _)
      have : joinChar c (x :: y :: t) = x ++ c :: joinChar c (y :: t) := rfl
      rw [this, splitOnChar_append_cons c x _ hx,
        ih (by simp) (fun p hp => hfree p (List.mem_cons_of_mem _ hp))]

theorem jsSplit_jsJoin (c : Char) (parts : List String) (hne : parts ≠ [])
    (hfree : ∀ p ∈ parts, c ∉ p.data) :
    jsSplit (jsJoin c parts) c = parts := by
  unfold jsSplit jsJoin
  have hdata : (String.mk (joinChar c (parts.map String.data))).data
      = joinChar c (parts.map String.data) := rfl
  rw [hdata, splitOnChar_joinChar c _ (by simpa using hne)
    (by intro p hp; rcases List.mem_map.mp hp with ⟨q, hq, rfl⟩; exact hfree q hq)]
  rw [List.map_map]
  have : (String.mk ∘ String.data) = id := by
    funext s
    cases s
    rfl
  rw [this, List.map_id]

theorem not_mem_of_mem_jsSplit (s : String) (c : Char) :
    ∀ p ∈ jsSplit s c, c ∉ p.data := by
  intro p hp
  unfold jsSplit at hp
  rcases List.mem_map.mp hp with ⟨q, hq, rfl⟩
  exact not_mem_of_mem_splitOnChar c s.data q hq

/-! ### JS `Map` model

A JS `Map` keeps at most one binding per key.  We model it as an association
list: `get` returns the first binding, `set` replaces the binding in place or
appends a fresh one, and `delete` removes the key's binding (every binding of
the key, which on a well-formed `Map` is the single one). -/

/-- JS `Map.prototype.get` (`undefined` is `none`). -/
def mapGet (m : List (String × Nat)) (k : String) : Option Nat :=
  match m with
  | [] => none
  | (k', v) :: rest => if k' = k then some v else mapGet rest k

/-- JS `Map.prototype.set`. -/
def mapSet (m : List (String × Nat)) (k : String) (v : Nat) : List (String × Nat) :=
  match m with
  | [] => [(k, v)]
  | (k', v') :: rest => if k' = k then (k, v) :: rest else (k', v') :: mapSet rest k v

/-- JS `Map.prototype.delete` (keys are unique in a `Map`, so removing every
binding of the key models deleting its single entry). -/
def mapDelete (m : List (String × Nat)) (k : String) : List (String × Nat) :=
  match m with
  | [] => []
  | (k', v) :: rest => if k' = k then mapDelete rest k else (k', v) :: mapDelete rest k

theorem mapGet_nil (k : String) : mapGet [] k = none := rfl

theorem mapGet_cons (k0 : String) (v0 : Nat) (rest : List (String × Nat)) (k : String) :
    mapGet ((k0, v0) :: rest) k = if k0 = k then some v0 else mapGet rest k := rfl

theorem mapSet_cons (k0 : String) (v0 : Nat) (rest : List (String × Nat)) (k : String) (v : Nat) :
    mapSet ((k0, v0) :: rest) k v =
      if k0 = k then (k, v) :: rest else (k0, v0) :: mapSet rest k v := rfl

theorem mapDelete_cons (k0 : String) (v0 : Nat) (rest : List (String × Nat)) (k : String) :
    mapDelete ((k0, v0) :: rest) k =
      if k0 = k then mapDelete rest k else (k0, v0) :: mapDelete rest k := rfl

theorem mapGet_mapSet (m : List (String × Nat)) (k : String) (v : Nat) (k' : String) :
    mapGet (mapSet m k v) k' = if k' = k then some v else mapGet m k' := by
  induction m with
  | nil =>
    show mapGet [(k, v)] k' = _
    rw [mapGet_cons, mapGet_nil]
    by_cases h : k' = k
    · rw [if_pos (h ▸ rfl : k = k'), if_pos h]
    · rw [if_neg (fun hh : k = k' => h hh.symm), if_neg h]
  | cons p rest ih =>
    obtain ⟨k0, v0⟩ := p
    rw [mapSet_cons]
    by_cases h0 : k0 = k
    · rw [if_pos h0, mapGet_cons, mapGet_cons]
      by_cases h1 : k' = k
      · rw [if_pos (h1 ▸ rfl : k = k'), if_pos h1]
      · rw [if_neg (fun hh : k = k' => h1 hh.symm), if_neg h1,
          if_neg (fun hh : k0 = k' => h1 (hh.symm.trans h0))]
    · rw [if_neg h0, mapGet_cons, ih, mapGet_cons]
      by_cases h1 : k0 = k'
      · rw [if_pos h1, if_neg (fun hh : k' = k => h0 (h1.trans hh)), if_pos h1]
      · rw [if_neg h1, if_neg h1]

theorem mapGet_mapDelete (m : List (String × Nat)) (k k' : String) :
    mapGet (mapDelete m k) k' = if k' = k then none else mapGet m k' := by
  induction m with
  | nil =>
    show mapGet [] k' = _
    rw [mapGet_nil]
    by_cases h : k' = k
    · rw [if_pos h]
    · rw [if_neg h]
  | cons p rest ih =>
    obtain ⟨k0, v0⟩ := p
    rw [mapDelete_cons]
    by_cases h0 : k0 = k
    · rw [if_pos h0, ih]
      by_cases h1 : k' = k
      · rw [if_pos h1, if_pos h1]
      · rw [if_neg h1, if_neg h1, mapGet_cons,
          if_neg (fun hh : k0 = k' => h1 (hh.symm.trans h0))]
    · rw [if_neg h0, mapGet_cons, ih, mapGet_cons]
      by_cases h1 : k0 = k'
      · rw [if_pos h1, if_neg (fun hh : k' = k => h0 (h1.trans hh)), if_pos h1]
      · rw [if_neg h1, if_neg h1]

/-! ### JS number-to-string coercion

`fromIndex + '-' + toIndex` in JS coerces the numeric indices to their decimal
representations.  `natToChars` is that decimal rendering; `charsToNat` is its
left inverse, which gives injectivity of the edge-map keys. -/

/-- Fuel-driven decimal rendering (structural recursion keeps the function
kernel-computable). -/
def natToCharsFuel : Nat → Nat → List Char
  | 0, _ => []
  | fuel + 1, n =>
    if n < 10 then [Char.ofNat (48 + n)]
    else natToCharsFuel fuel (n / 10) ++ [Char.ofNat (48 + n % 10)]

/-- Decimal digit characters of a natural number (JS number-to-string). -/
def natToChars (n : Nat) : List Char := natToCharsFuel (n + 1) n

theorem natToCharsFuel_congr : ∀ (f1 f2 n : Nat), n < f1 → n < f2 →
    natToCharsFuel f1 n = natToCharsFuel f2 n := by
  intro f1
  induction f1 with
  | zero => intro f2 n h1; omega
  | succ g ih =>
    intro f2 n h1 h2
    match f2 with
    | 0 => omega
    | h + 1 =>
      show (if n < 10 then _ else _) = (if n < 10 then _ else _)
      by_cases hn : n < 10
      · rw [if_pos hn, if_pos hn]
      · rw [if_neg hn, if_neg hn]
        have hdiv : n / 10 < n := Nat.div_lt_self (by omega) (by omega)
        rw [ih h (n / 10) (by omega) (by omega)]

theorem natToChars_eq (n : Nat) :
    natToChars n =
      if n < 10 then [Char.ofNat (48 + n)]
      else natToChars (n / 10) ++ [Char.ofNat (48 + n % 10)] := by
  show natToCharsFuel (n + 1) n = _
  show (if n < 10 then _ else _) = _
  by_cases hn : n < 10
  · rw [if_pos hn, if_pos hn]
  · rw [if_neg hn, if_neg hn]
    have hdiv : n / 10 < n := Nat.div_lt_self (by omega) (by omega)
    unfold natToChars
    rw [natToCharsFuel_congr n (n / 10 + 1) (n / 10) (by omega) (by omega)]

/-- Reads decimal digit characters back into a natural number. -/
def charsToNat (l : List Char) : Nat :=
  l.foldl (fun a c => a * 10 + (c.toNat - 48)) 0

theorem charsToNat_append_digit (xs : List Char) (d : Char) :
    charsToNat (xs ++ [d]) = charsToNat xs * 10 + (d.toNat - 48) := by
  unfold charsToNat
  rw [List.foldl_append]
  rfl

theorem char_ofNat_digit_toNat : ∀ d, d < 10 → (Char.ofNat (48 + d)).toNat = 48 + d := by
  decide

theorem charsToNat_natToChars (n : Nat) : charsToNat (natToChars n) = n := by
  induction n using Nat.strong_induction_on with
  | _ n ih =>
    by_cases h : n < 10
    · rw [natToChars_eq, if_pos h]
      show charsToNat [Char.ofNat (48 + n)] = n
      unfold charsToNat
      simp [List.foldl, char_ofNat_digit_toNat n h]
    · rw [natToChars_eq, if_neg h]
      rw [charsToNat_append_digit]
      have hdiv : n / 10 < n :=
        Nat.div_lt_self (Nat.pos_of_ne_zero (fun hz => h (by simp [hz]))) (by omega)
      rw [ih (n / 10) hdiv, char_ofNat_digit_toNat (n % 10) (Nat.mod_lt n (by omega))]
      omega

theorem natToChars_injective : Function.Injective natToChars := by
  intro a b hab
  have := charsToNat_natToChars a
  rw [hab, charsToNat_natToChars] at this
  exact this.symm

theorem dash_not_mem_natToChars (n : Nat) : Char.ofNat 45 ∉ natToChars n := by
  induction n using Nat.strong_induction_on with
  | _ n ih =>
    by_cases h : n < 10
    · rw [natToChars_eq, if_pos h]
      intro hmem
      have hh := List.mem_singleton.mp hmem
      exact (by decide : ∀ d, d < 10 → Char.ofNat (48 + d) ≠ Char.ofNat 45) n h hh.symm
    · rw [natToChars_eq, if_neg h]
      intro hmem
      rcases List.mem_append.mp hmem with hm | hm
      · have hdiv : n / 10 < n :=
          Nat.div_lt_self (Nat.pos_of_ne_zero (fun hz => h (by simp [hz]))) (by omega)
        exact ih (n / 10) hdiv hm
      · have : ∀ d, d < 10 → Char.ofNat (48 + d) ≠ Char.ofNat 45 := by decide
        have h45 := this (n % 10) (Nat.mod_lt n (by omega))
        simp at hm
        exact h45 hm.symm

/-- The edge-map key `fromIndex + '-' + toIndex` from `addEdgeToGraph`. -/
def edgeKeyStr (a b : Nat) : String :=
  String.mk (natToChars a ++ Char.ofNat 45 :: natToChars b)

theorem append_sep_inj {c : Char} {l1 l2 l1' l2' : List Char}
    (h1 : c ∉ l1) (h1' : c ∉ l1')
    (heq : l1 ++ c :: l2 = l1' ++ c :: l2') : l1 = l1' ∧ l2 = l2' := by
  induction l1 generalizing l1' with
  | nil =>
    match l1' with
    | [] => simpa using heq
    | x :: t =>
      simp only [List.nil_append, List.cons_append, List.cons.injEq] at heq
      exact absurd (heq.1 ▸ List.mem_cons_self _ _ : c ∈ x :: t) h1'
  | cons x t ih =>
    match l1' with
    | [] =>
      simp only [List.nil_append, List.cons_append, List.cons.injEq] at heq
      exact absurd (heq.1 ▸ List.mem_cons_self _ _ : c ∈ x :: t) h1
    | y :: t' =>
      simp only [List.cons_append, List.cons.injEq] at heq
      obtain ⟨rfl, heq2⟩ := heq
      have := ih (fun hm => h1 (List.mem_cons_of_mem _ hm))
        (fun hm => h1' (List.mem_cons_of_mem _ hm)) heq2
      exact ⟨by rw [this.1], this.2⟩

theorem edgeKeyStr_inj {a b a' b' : Nat} (h : edgeKeyStr a b = edgeKeyStr a' b') :
    a = a' ∧ b = b' := by
  unfold edgeKeyStr at h
  have hdata : natToChars a ++ Char.ofNat 45 :: natToChars b
      = natToChars a' ++ Char.ofNat 45 :: natToChars b' := congrArg String.data h
  have := append_sep_inj (dash_not_mem_natToChars a) (dash_not_mem_natToChars a') hdata
  exact ⟨natToChars_injective this.1, natToChars_injective this.2⟩

/-! ### Position codec (`fen-utils.js`) -/

/-- `START_FEN` from `fen-utils.js`. -/
def START_FEN : String := "rnbqkbnr/pppppppp/8/8/8/8/PPPPPPPP/RNBQKBNR w KQkq - 0 1"

/-- `normalizeFEN` from `fen-utils.js`: passes `'start'` through, and on a
six-field FEN clears en passant and resets the move counters to `0 1`;
anything else is returned unchanged. -/
def normalizeFEN (fen : String) : String :=
  if fen = "start" then "start"
  else
    match jsSplit fen ' ' with
    | [p0, p1, p2, _, _, _] => jsJoin ' ' [p0, p1, p2, "-", "0", "1"]
    | _ => fen

theorem normalizeFEN_eq (fen : String) (hne : fen ≠ "start") :
    normalizeFEN fen =
      match jsSplit fen ' ' with
      | [p0, p1, p2, _, _, _] => jsJoin ' ' [p0, p1, p2, "-", "0", "1"]
      | _ => fen := by
  unfold normalizeFEN
  rw [if_neg hne]

theorem jsSplit_start : jsSplit "start" ' ' = ["start"] := by decide

theorem ne_start_of_six {fen p0 p1 p2 p3 p4 p5 : String}
    (h : jsSplit fen ' ' = [p0, p1, p2, p3, p4, p5]) : fen ≠ "start" := by
  intro he
  rw [he, jsSplit_start] at h
  simp at h

theorem normalizeFEN_six {fen p0 p1 p2 p3 p4 p5 : String}
    (h : jsSplit fen ' ' = [p0, p1, p2, p3, p4, p5]) :
    normalizeFEN fen = jsJoin ' ' [p0, p1, p2, "-", "0", "1"] := by
  rw [normalizeFEN_eq fen (ne_start_of_six h), h]

theorem jsSplit_normalizeFEN_six {fen p0 p1 p2 p3 p4 p5 : String}
    (h : jsSplit fen ' ' = [p0, p1, p2, p3, p4, p5]) :
    jsSplit (normalizeFEN fen) ' ' = [p0, p1, p2, "-", "0", "1"] := by
  rw [normalizeFEN_six h]
  apply jsSplit_jsJoin
  · simp
  · intro p hp
    simp only [List.mem_cons, List.not_mem_nil, or_false] at hp
    rcases hp with rfl | rfl | rfl | rfl | rfl | rfl
    · exact not_mem_of_mem_jsSplit fen ' ' p (h ▸ (by simp))
    · exact not_mem_of_mem_jsSplit fen ' ' p (h ▸ (by simp))
    · exact not_mem_of_mem_jsSplit fen ' ' p (h ▸ (by simp))
    · decide
    · decide
    · decide

theorem normalizeFEN_ne_start {fen p0 p1 p2 p3 p4 p5 : String}
    (h : jsSplit fen ' ' = [p0, p1, p2, p3, p4, p5]) :
    normalizeFEN fen ≠ "start" :=
  ne_start_of_six (jsSplit_normalizeFEN_six h)

/-- C5: `normalizeFEN` is idempotent on every input string, in particular on
every valid full FEN key and on the sentinel `'start'`:
`normalizeFEN (normalizeFEN k) = normalizeFEN k`. -/
theorem normalizeFEN_idempotent (fen : String) :
    normalizeFEN (normalizeFEN fen) = normalizeFEN fen := by
  by_cases hne : fen = "start"
  · subst hne
    rfl
  · rcases h : jsSplit fen ' ' with _ | ⟨p0, _ | ⟨p1, _ | ⟨p2, _ | ⟨p3, _ | ⟨p4, _ | ⟨p5, _ | ⟨p6, t⟩⟩⟩⟩⟩⟩⟩
    · exact absurd h (jsSplit_ne_nil fen ' ')
    · have heq : normalizeFEN fen = fen := by rw [normalizeFEN_eq fen hne, h]
      rw [heq, heq]
    · have heq : normalizeFEN fen = fen := by rw [normalizeFEN_eq fen hne, h]
      rw [heq, heq]
    · have heq : normalizeFEN fen = fen := by rw [normalizeFEN_eq fen hne, h]
      rw [heq, heq]
    · have heq : normalizeFEN fen = fen := by rw [normalizeFEN_eq fen hne, h]
      rw [heq, heq]
    · have heq : normalizeFEN fen = fen := by rw [normalizeFEN_eq fen hne, h]
      rw [heq, heq]
    · rw [normalizeFEN_six (jsSplit_normalizeFEN_six h), normalizeFEN_six h]
    · have heq : normalizeFEN fen = fen := by rw [normalizeFEN_eq fen hne, h]
      rw [heq, heq]

/-- C4: on well-formed six-field FEN strings, `normalizeFEN` identifies
exactly the strings agreeing on piece placement, active color and castling
rights (the first three fields): if those agree the normal forms are equal
(differences in en passant and move counters are erased), and if they differ
the normal forms differ. -/
theorem normalizeFEN_identity_fields
    (a b p0 p1 p2 a3 a4 a5 q0 q1 q2 b3 b4 b5 : String)
    (ha : jsSplit a ' ' = [p0, p1, p2, a3, a4, a5])
    (hb : jsSplit b ' ' = [q0, q1, q2, b3, b4, b5]) :
    ((p0 = q0 ∧ p1 = q1 ∧ p2 = q2) → normalizeFEN a = normalizeFEN b) ∧
    (¬(p0 = q0 ∧ p1 = q1 ∧ p2 = q2) → normalizeFEN a ≠ normalizeFEN b) := by
  constructor
  · rintro ⟨rfl, rfl, rfl⟩
    rw [normalizeFEN_six ha, normalizeFEN_six hb]
  · intro hne heq
    have h1 := jsSplit_normalizeFEN_six ha
    have h2 := jsSplit_normalizeFEN_six hb
    rw [heq, h2] at h1
    simp only [List.cons.injEq, and_true] at h1
    exact hne ⟨h1.1.symm, h1.2.1.symm, h1.2.2.symm⟩

/-- Witness for C4 at concrete positions: the starting position with and
without an en-passant target / nonzero counters normalizes identically, while
a position with a different piece placement normalizes differently. -/
theorem normalizeFEN_identity_fields_witness :
    normalizeFEN "rnbqkbnr/pppppppp/8/8/8/8/PPPPPPPP/RNBQKBNR w KQkq - 0 1"
      = normalizeFEN "rnbqkbnr/pppppppp/8/8/8/8/PPPPPPPP/RNBQKBNR w KQkq e3 5 9" ∧
    normalizeFEN "rnbqkbnr/pppppppp/8/8/8/8/PPPPPPPP/RNBQKBNR w KQkq - 0 1"
      ≠ normalizeFEN "rnbqkbnr/pppppppp/8/8/4P3/8/PPPP1PPP/RNBQKBNR b KQkq - 0 1" := by
  constructor
  · exact (normalizeFEN_identity_fields
      "rnbqkbnr/pppppppp/8/8/8/8/PPPPPPPP/RNBQKBNR w KQkq - 0 1"
      "rnbqkbnr/pppppppp/8/8/8/8/PPPPPPPP/RNBQKBNR w KQkq e3 5 9"
      "rnbqkbnr/pppppppp/8/8/8/8/PPPPPPPP/RNBQKBNR" "w" "KQkq" "-" "0" "1"
      "rnbqkbnr/pppppppp/8/8/8/8/PPPPPPPP/RNBQKBNR" "w" "KQkq" "e3" "5" "9"
      (by decide) (by decide)).1 ⟨rfl, rfl, rfl⟩
  · exact (normalizeFEN_identity_fields
      "rnbqkbnr/pppppppp/8/8/8/8/PPPPPPPP/RNBQKBNR w KQkq - 0 1"
      "rnbqkbnr/pppppppp/8/8/4P3/8/PPPP1PPP/RNBQKBNR b KQkq - 0 1"
      "rnbqkbnr/pppppppp/8/8/8/8/PPPPPPPP/RNBQKBNR" "w" "KQkq" "-" "0" "1"
      "rnbqkbnr/pppppppp/8/8/4P3/8/PPPP1PPP/RNBQKBNR" "b" "KQkq" "-" "0" "1"
      (by decide) (by decide)).2 (by decide)

/-! ### The opening graph (shared graph code)

The mutable globals `graphNodes`, `graphEdges`, `stateToIndex`, `edgeMap` and
`lastEdgeIndex` are threaded as one record.  Rendering calls (`drawGraph`,
the `skipDraw` flag) do not touch this state and are omitted. -/

/-- One entry of `graphEdges`: `{from, to, move, fullFEN, annotation}`. -/
structure Edge where
  «from» : Nat
  «to» : Nat
  move : String
  fullFEN : String
  annotation : String
deriving DecidableEq

/-- The graph globals. -/
structure GraphState where
  graphNodes : List String
  graphEdges : List Edge
  stateToIndex : List (String × Nat)
  edgeMap : List (String × Nat)
  lastEdgeIndex : Int
deriving DecidableEq

/-- The node string `addNodeToGraph` stores: the normalized state, with the
full starting FEN converted to the `'start'` keyword. -/
def nodeName (state : String) : String :=
  if normalizeFEN state = START_FEN then "start" else normalizeFEN state

/-- `addNodeToGraph`: normalize, convert the starting FEN to `'start'`, then
return the existing index or push a new node and index it.  Returns the index
together with the updated state. -/
def addNodeToGraph (g : GraphState) (state : String) : Nat × GraphState :=
  match mapGet g.stateToIndex (nodeName state) with
  | none =>
      (g.graphNodes.length,
        { g with
            graphNodes := g.graphNodes ++ [nodeName state],
            stateToIndex := mapSet g.stateToIndex (nodeName state) g.graphNodes.length })
  | some i => (i, g)

/-- The in-place payload update `addEdgeToGraph` performs on an existing edge:
annotation, move and fullFEN are each overwritten only when the supplied value
is non-empty (JS `undefined` is modelled as `""`, which behaves identically in
both branches of the source). -/
def updateEdgeAt (edges : List Edge) (i : Nat) ( annotation move fullFEN : String) : List Edge :=
  match edges[i]? with
  | none => edges
  | some e =>
      edges.set i
        { e with
            annotation := if annotation ≠ "" then annotation else Edge.annotation e,
            move := if move ≠ "" then move else e.move,
            fullFEN := if fullFEN ≠ "" then fullFEN else e.fullFEN }

/-- `addEdgeToGraph` (the `edgeMap` variant): ensure both endpoint nodes
(`fromIndex` first, then `toIndex` on the updated state, as in the source),
look the ordered pair key `from + '-' + to` up in `edgeMap`, and either push a
fresh edge and index it or update the existing edge in place. -/
def addEdgeToGraph (g : GraphState) (fromState toState annotation move fullFEN : String) :
    GraphState :=
  match mapGet (addNodeToGraph (addNodeToGraph g fromState).2 toState).2.edgeMap
      (edgeKeyStr (addNodeToGraph g fromState).1
        (addNodeToGraph (addNodeToGraph g fromState).2 toState).1) with
  | none =>
      { (addNodeToGraph (addNodeToGraph g fromState).2 toState).2 with
          graphEdges := (addNodeToGraph (addNodeToGraph g fromState).2 toState).2.graphEdges ++
            [{ «from» := (addNodeToGraph g fromState).1,
               «to» := (addNodeToGraph (addNodeToGraph g fromState).2 toState).1,
               move := move, fullFEN := fullFEN, annotation := annotation }],
          edgeMap := mapSet (addNodeToGraph (addNodeToGraph g fromState).2 toState).2.edgeMap
            (edgeKeyStr (addNodeToGraph g fromState).1
              (addNodeToGraph (addNodeToGraph g fromState).2 toState).1)
            (addNodeToGraph (addNodeToGraph g fromState).2 toState).2.graphEdges.length,
          lastEdgeIndex :=
            Int.ofNat (addNodeToGraph (addNodeToGraph g fromState).2 toState).2.graphEdges.length }
  | some existingEdgeIndex =>
      { (addNodeToGraph (addNodeToGraph g fromState).2 toState).2 with
          graphEdges := updateEdgeAt
            (addNodeToGraph (addNodeToGraph g fromState).2 toState).2.graphEdges
            existingEdgeIndex annotation move fullFEN,
          lastEdgeIndex := Int.ofNat existingEdgeIndex }

/-- The initial values of the graph globals in the source. -/
def emptyGraphState : GraphState :=
  { graphNodes := [], graphEdges := [], stateToIndex := [], edgeMap := [],
    lastEdgeIndex := -1 }

/-- The graph right after `initCanvas` has run `addNodeToGraph('start')`. -/
def initialGraphState : GraphState := (addNodeToGraph emptyGraphState "start").2

/-! ### Index consistency -/

/-- `stateToIndex` holds exactly the bindings `graphNodes[i] -> i`. -/
def WFnodes (g : GraphState) : Prop :=
  ∀ s j, mapGet g.stateToIndex s = some j ↔ g.graphNodes[j]? = some s

/-- `edgeMap` holds exactly the bindings `from + '-' + to -> edge index`. -/
def WFedges (g : GraphState) : Prop :=
  ∀ k j, mapGet g.edgeMap k = some j ↔
    ∃ e, g.graphEdges[j]? = some e ∧ edgeKeyStr e.«from» e.«to» = k

/-- Every edge endpoint is a valid node index. -/
def WFrange (g : GraphState) : Prop :=
  ∀ e ∈ g.graphEdges, e.«from» < g.graphNodes.length ∧ e.«to» < g.graphNodes.length

/-- Full index consistency of the graph state. -/
def WF (g : GraphState) : Prop := WFnodes g ∧ WFedges g ∧ WFrange g

theorem nodeName_ne_START_FEN (s : String) : nodeName s ≠ START_FEN := by
  unfold nodeName
  split
  · decide
  · assumption

theorem addNodeToGraph_graphEdges (g : GraphState) (s : String) :
    (addNodeToGraph g s).2.graphEdges = g.graphEdges := by
  unfold addNodeToGraph
  cases mapGet g.stateToIndex (nodeName s) <;> rfl

theorem addNodeToGraph_edgeMap (g : GraphState) (s : String) :
    (addNodeToGraph g s).2.edgeMap = g.edgeMap := by
  unfold addNodeToGraph
  cases mapGet g.stateToIndex (nodeName s) <;> rfl

theorem addNodeToGraph_length_le (g : GraphState) (s : String) :
    g.graphNodes.length ≤ (addNodeToGraph g s).2.graphNodes.length := by
  unfold addNodeToGraph
  cases mapGet g.stateToIndex (nodeName s)
  · simp
  · simp

theorem addNodeToGraph_getElem?_preserved (g : GraphState) (s : String) (j : Nat)
    (hj : j < g.graphNodes.length) :
    (addNodeToGraph g s).2.graphNodes[j]? = g.graphNodes[j]? := by
  unfold addNodeToGraph
  cases mapGet g.stateToIndex (nodeName s)
  · simp only
    exact List.getElem?_append_left hj
  · rfl

theorem addNodeToGraph_WFnodes (g : GraphState) (s : String) (hwf : WFnodes g) :
    WFnodes (addNodeToGraph g s).2 := by
  unfold addNodeToGraph
  rcases h : mapGet g.stateToIndex (nodeName s) with _ | i
  · intro s' j
    simp only
    rw [mapGet_mapSet]
    by_cases hs : s' = nodeName s
    · subst hs
      rw [if_pos rfl]
      constructor
      · intro hj
        obtain rfl : g.graphNodes.length = j := Option.some.inj hj
        exact List.getElem?_concat_length _ _
      · intro hj
        rcases Nat.lt_trichotomy j g.graphNodes.length with hlt | heq | hgt
        · rw [List.getElem?_append_left hlt] at hj
          exact absurd ((hwf _ j).mpr hj) (by rw [h]; simp)
        · rw [heq]
        · rw [List.getElem?_eq_none (by simp; omega)] at hj
          exact absurd hj (by simp)
    · rw [if_neg hs]
      rw [hwf s' j]
      rcases Nat.lt_trichotomy j g.graphNodes.length with hlt | heq | hgt
      · rw [List.getElem?_append_left hlt]
      · subst heq
        rw [List.getElem?_concat_length,
          List.getElem?_eq_none (Nat.le_refl _)]
        constructor
        · intro hh
          exact absurd hh (by simp)
        · intro hh
          exact absurd ((Option.some.injEq _ _).mp hh) (fun he => hs he.symm)
      · rw [List.getElem?_eq_none (by omega),
          List.getElem?_eq_none (by simp; omega)]
  · exact hwf

theorem addNodeToGraph_WFedges (g : GraphState) (s : String) (hwf : WFedges g) :
    WFedges (addNodeToGraph g s).2 := by
  intro k j
  rw [addNodeToGraph_edgeMap, addNodeToGraph_graphEdges]
  exact hwf k j

theorem addNodeToGraph_WFrange (g : GraphState) (s : String) (hwf : WFrange g) :
    WFrange (addNodeToGraph g s).2 := by
  intro e he
  rw [addNodeToGraph_graphEdges] at he
  have := hwf e he
  have hle := addNodeToGraph_length_le g s
  omega

theorem addNodeToGraph_WF (g : GraphState) (s : String) (hwf : WF g) :
    WF (addNodeToGraph g s).2 :=
  ⟨addNodeToGraph_WFnodes g s hwf.1, addNodeToGraph_WFedges g s hwf.2.1,
    addNodeToGraph_WFrange g s hwf.2.2⟩

theorem addNodeToGraph_ret (g : GraphState) (s : String) (hwf : WFnodes g) :
    (addNodeToGraph g s).2.graphNodes[(addNodeToGraph g s).1]? = some (nodeName s) := by
  unfold addNodeToGraph
  rcases h : mapGet g.stateToIndex (nodeName s) with _ | i
  · simp only
    exact List.getElem?_concat_length _ _
  · exact (hwf (nodeName s) i).mp h

theorem addNodeToGraph_mapGet_mono (g : GraphState) (s s' : String) (j : Nat)
    (h : mapGet g.stateToIndex s' = some j) :
    mapGet (addNodeToGraph g s).2.stateToIndex s' = some j := by
  unfold addNodeToGraph
  rcases hm : mapGet g.stateToIndex (nodeName s) with _ | i
  · simp only
    rw [mapGet_mapSet]
    by_cases hs : s' = nodeName s
    · subst hs
      rw [h] at hm
      exact absurd hm (by simp)
    · rw [if_neg hs]
      exact h
  · exact h

/-! ### `addEdgeToGraph` properties -/

/-- The payload an existing edge receives on duplicate insertion. -/
def updatedEdge (e : Edge) ( annotation move fullFEN : String) : Edge :=
  { e with
      annotation := if annotation ≠ "" then annotation else Edge.annotation e,
      move := if move ≠ "" then move else e.move,
      fullFEN := if fullFEN ≠ "" then fullFEN else e.fullFEN }

theorem updateEdgeAt_eq (edges : List Edge) (i : Nat) (a m f : String) :
    updateEdgeAt edges i a m f =
      match edges[i]? with
      | none => edges
      | some e => edges.set i (updatedEdge e a m f) := rfl

theorem updateEdgeAt_length (edges : List Edge) (i : Nat) (a m f : String) :
    (updateEdgeAt edges i a m f).length = edges.length := by
  rw [updateEdgeAt_eq]
  rcases h : edges[i]? with _ | e
  · rfl
  · exact List.length_set edges i _

theorem updateEdgeAt_getElem?_ne (edges : List Edge) (i : Nat) (a m f : String) (j : Nat)
    (hj : i ≠ j) :
    (updateEdgeAt edges i a m f)[j]? = edges[j]? := by
  rw [updateEdgeAt_eq]
  rcases h : edges[i]? with _ | e
  · rfl
  · exact List.getElem?_set_ne hj

theorem updateEdgeAt_getElem?_eq (edges : List Edge) (i : Nat) (a m f : String) (e : Edge)
    (he : edges[i]? = some e) :
    (updateEdgeAt edges i a m f)[i]? = some (updatedEdge e a m f) := by
  rw [updateEdgeAt_eq, he]
  exact List.getElem?_set_self (List.getElem?_eq_some.mp he).1

theorem updatedEdge_from (e : Edge) (a m f : String) : (updatedEdge e a m f).«from» = e.«from» := rfl

theorem updatedEdge_to (e : Edge) (a m f : String) : (updatedEdge e a m f).«to» = e.«to» := rfl

theorem updateEdgeAt_endpoints (edges : List Edge) (i : Nat) (a m f : String) :
    ∀ e' ∈ updateEdgeAt edges i a m f, ∃ e ∈ edges, e'.«from» = e.«from» ∧ e'.«to» = e.«to» := by
  intro e' he'
  rw [updateEdgeAt_eq] at he'
  rcases h : edges[i]? with _ | e
  · rw [h] at he'
    exact ⟨e', he', rfl, rfl⟩
  · rw [h] at he'
    rcases List.mem_or_eq_of_mem_set he' with hm | hm
    · exact ⟨e', hm, rfl, rfl⟩
    · exact ⟨e, List.getElem?_mem h, by rw [hm]; exact ⟨rfl, rfl⟩⟩

theorem addEdgeToGraph_graphNodes (g : GraphState) (fs ts ann mv ff : String) :
    (addEdgeToGraph g fs ts ann mv ff).graphNodes =
      (addNodeToGraph (addNodeToGraph g fs).2 ts).2.graphNodes := by
  unfold addEdgeToGraph
  rcases h : mapGet (addNodeToGraph (addNodeToGraph g fs).2 ts).2.edgeMap
      (edgeKeyStr (addNodeToGraph g fs).1 (addNodeToGraph (addNodeToGraph g fs).2 ts).1)
      with _ | i <;> rfl

theorem addEdgeToGraph_stateToIndex (g : GraphState) (fs ts ann mv ff : String) :
    (addEdgeToGraph g fs ts ann mv ff).stateToIndex =
      (addNodeToGraph (addNodeToGraph g fs).2 ts).2.stateToIndex := by
  unfold addEdgeToGraph
  rcases h : mapGet (addNodeToGraph (addNodeToGraph g fs).2 ts).2.edgeMap
      (edgeKeyStr (addNodeToGraph g fs).1 (addNodeToGraph (addNodeToGraph g fs).2 ts).1)
      with _ | i <;> rfl

theorem addEdgeToGraph_WFnodes (g : GraphState) (fs ts ann mv ff : String)
    (hwf : WFnodes g) : WFnodes (addEdgeToGraph g fs ts ann mv ff) := by
  intro s j
  rw [addEdgeToGraph_stateToIndex, addEdgeToGraph_graphNodes]
  exact addNodeToGraph_WFnodes _ ts (addNodeToGraph_WFnodes g fs hwf) s j

theorem addNodeToGraph_index_lt (g : GraphState) (s : String) (hwf : WFnodes g) :
    (addNodeToGraph g s).1 < (addNodeToGraph g s).2.graphNodes.length :=
  (List.getElem?_eq_some.mp (addNodeToGraph_ret g s hwf)).1

theorem addEdgeToGraph_WFedges (g : GraphState) (fs ts ann mv ff : String)
    (hwfe : WFedges g) :
    WFedges (addEdgeToGraph g fs ts ann mv ff) := by
  have hwfe2 : WFedges (addNodeToGraph (addNodeToGraph g fs).2 ts).2 :=
    addNodeToGraph_WFedges _ ts (addNodeToGraph_WFedges g fs hwfe)
  unfold addEdgeToGraph
  rcases h : mapGet (addNodeToGraph (addNodeToGraph g fs).2 ts).2.edgeMap
      (edgeKeyStr (addNodeToGraph g fs).1 (addNodeToGraph (addNodeToGraph g fs).2 ts).1)
      with _ | i
  · intro k j
    simp only
    rw [mapGet_mapSet]
    by_cases hk : k = edgeKeyStr (addNodeToGraph g fs).1 (addNodeToGraph (addNodeToGraph g fs).2 ts).1
    · subst hk
      rw [if_pos rfl]
      constructor
      · intro hj
        obtain rfl := Option.some.inj hj
        refine ⟨_, List.getElem?_concat_length _ _, rfl⟩
      · rintro ⟨e', he', hkey⟩
        rcases Nat.lt_trichotomy j (addNodeToGraph (addNodeToGraph g fs).2 ts).2.graphEdges.length
            with hlt | heq | hgt
        · rw [List.getElem?_append_left hlt] at he'
          exact absurd ((hwfe2 _ j).mpr ⟨e', he', hkey⟩) (by rw [h]; simp)
        · rw [heq]
        · rw [List.getElem?_eq_none (by simp; omega)] at he'
          exact absurd he' (by simp)
    · rw [if_neg hk, hwfe2 k j]
      constructor
      · rintro ⟨e, he, hkey⟩
        have hlt := (List.getElem?_eq_some.mp he).1
        exact ⟨e, by rw [List.getElem?_append_left hlt]; exact he, hkey⟩
      · rintro ⟨e', he', hkey⟩
        rcases Nat.lt_trichotomy j (addNodeToGraph (addNodeToGraph g fs).2 ts).2.graphEdges.length
            with hlt | heq | hgt
        · rw [List.getElem?_append_left hlt] at he'
          exact ⟨e', he', hkey⟩
        · subst heq
          rw [List.getElem?_concat_length] at he'
          obtain rfl := Option.some.inj he'
          exact absurd (show k = edgeKeyStr (addNodeToGraph g fs).1
            (addNodeToGraph (addNodeToGraph g fs).2 ts).1 from hkey.symm) hk
        · rw [List.getElem?_eq_none (by simp; omega)] at he'
          exact absurd he' (by simp)
  · intro k j
    simp only
    rw [hwfe2 k j]
    constructor
    · rintro ⟨e, he, hkey⟩
      have hi := (hwfe2 _ i).mp h
      rcases hi with ⟨ei, hei, hkeyi⟩
      by_cases hij : i = j
      · subst hij
        have hee : ei = e := by rw [hei] at he; exact Option.some.inj he
        refine ⟨updatedEdge ei ann mv ff, updateEdgeAt_getElem?_eq _ i ann mv ff ei hei, ?_⟩
        show edgeKeyStr ei.«from» ei.«to» = k
        rw [hee]
        exact hkey
      · exact ⟨e, by rw [updateEdgeAt_getElem?_ne _ i ann mv ff j hij]; exact he, hkey⟩
    · rintro ⟨e', he', hkey⟩
      have hi := (hwfe2 _ i).mp h
      rcases hi with ⟨ei, hei, hkeyi⟩
      by_cases hij : i = j
      · subst hij
        rw [updateEdgeAt_getElem?_eq _ i ann mv ff ei hei] at he'
        obtain rfl := Option.some.inj he'
        exact ⟨ei, hei, hkey⟩
      · rw [updateEdgeAt_getElem?_ne _ i ann mv ff j hij] at he'
        exact ⟨e', he', hkey⟩

theorem addEdgeToGraph_WFrange (g : GraphState) (fs ts ann mv ff : String)
    (hwf : WF g) : WFrange (addEdgeToGraph g fs ts ann mv ff) := by
  have hwfn1 : WFnodes (addNodeToGraph g fs).2 := addNodeToGraph_WFnodes g fs hwf.1
  have hr2 : WFrange (addNodeToGraph (addNodeToGraph g fs).2 ts).2 :=
    addNodeToGraph_WFrange _ ts (addNodeToGraph_WFrange g fs hwf.2.2)
  have hfi : (addNodeToGraph g fs).1 <
      (addNodeToGraph (addNodeToGraph g fs).2 ts).2.graphNodes.length := by
    have h1 := addNodeToGraph_index_lt g fs hwf.1
    have h2 := addNodeToGraph_length_le (addNodeToGraph g fs).2 ts
    omega
  have hti : (addNodeToGraph (addNodeToGraph g fs).2 ts).1 <
      (addNodeToGraph (addNodeToGraph g fs).2 ts).2.graphNodes.length :=
    addNodeToGraph_index_lt _ ts hwfn1
  unfold addEdgeToGraph
  rcases h : mapGet (addNodeToGraph (addNodeToGraph g fs).2 ts).2.edgeMap
      (edgeKeyStr (addNodeToGraph g fs).1 (addNodeToGraph (addNodeToGraph g fs).2 ts).1)
      with _ | i
  · intro e he
    simp only at he
    rcases List.mem_append.mp he with hm | hm
    · exact hr2 e hm
    · obtain rfl := List.mem_singleton.mp hm
      exact ⟨hfi, hti⟩
  · intro e he
    simp only at he
    rcases updateEdgeAt_endpoints _ i ann mv ff e he with ⟨e0, he0, hf, ht⟩
    have := hr2 e0 he0
    rw [hf, ht]
    exact this

theorem addEdgeToGraph_WF (g : GraphState) (fs ts ann mv ff : String) (hwf : WF g) :
    WF (addEdgeToGraph g fs ts ann mv ff) :=
  ⟨addEdgeToGraph_WFnodes g fs ts ann mv ff hwf.1,
   addEdgeToGraph_WFedges g fs ts ann mv ff hwf.2.1,
   addEdgeToGraph_WFrange g fs ts ann mv ff hwf⟩

theorem WFnodes_index_unique (g : GraphState) (hwf : WFnodes g) {i j : Nat} {s : String}
    (hi : g.graphNodes[i]? = some s) (hj : g.graphNodes[j]? = some s) : i = j := by
  have h1 := (hwf s i).mpr hi
  have h2 := (hwf s j).mpr hj
  rw [h1] at h2
  exact Option.some.inj h2

theorem WFnodes_nodup (g : GraphState) (hwf : WFnodes g) : g.graphNodes.Nodup := by
  rw [List.nodup_iff_injective_get]
  intro i j hij
  have hi : g.graphNodes[i.val]? = some (g.graphNodes.get i) := by
    rw [List.get_eq_getElem, List.getElem?_eq_getElem i.isLt]
  have hj : g.graphNodes[j.val]? = some (g.graphNodes.get j) := by
    rw [List.get_eq_getElem, List.getElem?_eq_getElem j.isLt]
  rw [hij] at hi
  exact Fin.ext (WFnodes_index_unique g hwf hi hj)

theorem pairs_unique_of_WFedges (g : GraphState) (hwfe : WFedges g) :
    ∀ (i j : Nat) (ei ej : Edge), g.graphEdges[i]? = some ei → g.graphEdges[j]? = some ej →
      ei.«from» = ej.«from» → ei.«to» = ej.«to» → i = j := by
  intro i j ei ej hi hj hf ht
  have h1 := (hwfe (edgeKeyStr ei.«from» ei.«to») i).mpr ⟨ei, hi, rfl⟩
  have h2 := (hwfe (edgeKeyStr ei.«from» ei.«to») j).mpr ⟨ej, hj, by rw [hf, ht]⟩
  rw [h1] at h2
  exact Option.some.inj h2

theorem addEdgeToGraph_nodes_getElem?_preserved (g : GraphState) (fs ts ann mv ff : String)
    (j : Nat) (hj : j < g.graphNodes.length) :
    (addEdgeToGraph g fs ts ann mv ff).graphNodes[j]? = g.graphNodes[j]? := by
  rw [addEdgeToGraph_graphNodes]
  have h1 : j < (addNodeToGraph g fs).2.graphNodes.length :=
    Nat.lt_of_lt_of_le hj (addNodeToGraph_length_le g fs)
  rw [addNodeToGraph_getElem?_preserved _ ts j h1, addNodeToGraph_getElem?_preserved g fs j hj]

theorem addEdgeToGraph_edge_exists (g : GraphState) (fs ts ann mv ff : String)
    (hwf : WFnodes g) (hwfe : WFedges g) :
    ∃ (j : Nat) (e : Edge), (addEdgeToGraph g fs ts ann mv ff).graphEdges[j]? = some e ∧
      (addEdgeToGraph g fs ts ann mv ff).graphNodes[e.«from»]? = some (nodeName fs) ∧
      (addEdgeToGraph g fs ts ann mv ff).graphNodes[e.«to»]? = some (nodeName ts) := by
  have hwfn1 := addNodeToGraph_WFnodes g fs hwf
  have hfrom : (addNodeToGraph (addNodeToGraph g fs).2 ts).2.graphNodes[(addNodeToGraph g fs).1]?
      = some (nodeName fs) := by
    rw [addNodeToGraph_getElem?_preserved _ ts _ (addNodeToGraph_index_lt g fs hwf)]
    exact addNodeToGraph_ret g fs hwf
  have hto : (addNodeToGraph (addNodeToGraph g fs).2 ts).2.graphNodes[(addNodeToGraph
      (addNodeToGraph g fs).2 ts).1]? = some (nodeName ts) :=
    addNodeToGraph_ret _ ts hwfn1
  unfold addEdgeToGraph
  rcases h : mapGet (addNodeToGraph (addNodeToGraph g fs).2 ts).2.edgeMap
      (edgeKeyStr (addNodeToGraph g fs).1 (addNodeToGraph (addNodeToGraph g fs).2 ts).1)
      with _ | i
  · refine ⟨(addNodeToGraph (addNodeToGraph g fs).2 ts).2.graphEdges.length,
      { «from» := (addNodeToGraph g fs).1,
        «to» := (addNodeToGraph (addNodeToGraph g fs).2 ts).1,
        move := mv, fullFEN := ff, annotation := ann }, ?_, ?_, ?_⟩
    · exact List.getElem?_concat_length _ _
    · exact hfrom
    · exact hto
  · have hwfe2 : WFedges (addNodeToGraph (addNodeToGraph g fs).2 ts).2 :=
      addNodeToGraph_WFedges _ ts (addNodeToGraph_WFedges g fs hwfe)
    rcases (hwfe2 _ i).mp h with ⟨ei, hei, hkeyi⟩
    obtain ⟨hf, ht⟩ := edgeKeyStr_inj hkeyi
    refine ⟨i, updatedEdge ei ann mv ff, ?_, ?_, ?_⟩
    · exact updateEdgeAt_getElem?_eq _ i ann mv ff ei hei
    · show (addNodeToGraph (addNodeToGraph g fs).2 ts).2.graphNodes[(updatedEdge
        ei ann mv ff).«from»]? = some (nodeName fs)
      rw [updatedEdge_from, hf]
      exact hfrom
    · show (addNodeToGraph (addNodeToGraph g fs).2 ts).2.graphNodes[(updatedEdge
        ei ann mv ff).«to»]? = some (nodeName ts)
      rw [updatedEdge_to, ht]
      exact hto

theorem addEdgeToGraph_pairs_preserved (g : GraphState) (fs ts ann mv ff : String)
    (j : Nat) (e : Edge) (he : g.graphEdges[j]? = some e) :
    ∃ e2 : Edge, (addEdgeToGraph g fs ts ann mv ff).graphEdges[j]? = some e2 ∧
      e2.«from» = e.«from» ∧ e2.«to» = e.«to» := by
  have hedges : (addNodeToGraph (addNodeToGraph g fs).2 ts).2.graphEdges = g.graphEdges := by
    rw [addNodeToGraph_graphEdges, addNodeToGraph_graphEdges]
  unfold addEdgeToGraph
  rcases h : mapGet (addNodeToGraph (addNodeToGraph g fs).2 ts).2.edgeMap
      (edgeKeyStr (addNodeToGraph g fs).1 (addNodeToGraph (addNodeToGraph g fs).2 ts).1)
      with _ | i
  · refine ⟨e, ?_, rfl, rfl⟩
    show ((addNodeToGraph (addNodeToGraph g fs).2 ts).2.graphEdges ++ _)[j]? = some e
    rw [hedges, List.getElem?_append_left (List.getElem?_eq_some.mp he).1]
    exact he
  · by_cases hij : i = j
    · subst hij
      have hei : (addNodeToGraph (addNodeToGraph g fs).2 ts).2.graphEdges[i]? = some e := by
        rw [hedges]
        exact he
      exact ⟨updatedEdge e ann mv ff, updateEdgeAt_getElem?_eq _ i ann mv ff e hei, rfl, rfl⟩
    · refine ⟨e, ?_, rfl, rfl⟩
      show (updateEdgeAt (addNodeToGraph (addNodeToGraph g fs).2 ts).2.graphEdges
        i ann mv ff)[j]? = some e
      rw [updateEdgeAt_getElem?_ne _ i ann mv ff j hij, hedges]
      exact he

theorem WF_emptyGraphState : WF emptyGraphState := by
  refine ⟨?_, ?_, ?_⟩
  · intro s j
    constructor
    · intro h
      exact absurd h (by simp [emptyGraphState, mapGet_nil])
    · intro h
      exact absurd h (by simp [emptyGraphState])
  · intro k j
    constructor
    · intro h
      exact absurd h (by simp [emptyGraphState, mapGet_nil])
    · rintro ⟨e, he, hk⟩
      exact absurd he (by simp [emptyGraphState])
  · intro e he
    exact absurd he (by simp [emptyGraphState])

theorem WF_initialGraphState : WF initialGraphState :=
  addNodeToGraph_WF emptyGraphState "start" WF_emptyGraphState

/-- C10: a state whose normalization is the full starting FEN is stored as
the `'start'` sentinel: `addNodeToGraph` treats it exactly like
`addNodeToGraph('start')`, and the literal starting FEN is never stored in
`graphNodes`, so the initial position can never occupy two distinct nodes. -/
theorem addNodeToGraph_start_sentinel (g : GraphState) (s : String)
    (h : normalizeFEN s = START_FEN) :
    addNodeToGraph g s = addNodeToGraph g "start" ∧
    (START_FEN ∉ g.graphNodes → START_FEN ∉ (addNodeToGraph g s).2.graphNodes) := by
  have hname : nodeName s = "start" := by
    unfold nodeName
    rw [h, if_pos rfl]
  constructor
  · unfold addNodeToGraph
    rw [hname, (by decide : nodeName "start" = "start")]
  · intro hnm
    unfold addNodeToGraph
    rcases hm : mapGet g.stateToIndex (nodeName s) with _ | i
    · simp only
      intro hmem
      rcases List.mem_append.mp hmem with h1 | h1
      · exact hnm h1
      · exact nodeName_ne_START_FEN s (List.mem_singleton.mp h1).symm
    · exact hnm

/-- Witness for C10: inserting the literal starting FEN into the initial
graph is the same call as inserting `'start'`. -/
theorem addNodeToGraph_start_sentinel_witness :
    addNodeToGraph initialGraphState START_FEN = addNodeToGraph initialGraphState "start" ∧
    (START_FEN ∉ initialGraphState.graphNodes →
      START_FEN ∉ (addNodeToGraph initialGraphState START_FEN).2.graphNodes) :=
  addNodeToGraph_start_sentinel initialGraphState START_FEN (by decide)

/-- C3: after an `addEdgeToGraph` call on a consistent graph there is at most
one edge per ordered `(from, to)` node-index pair, and inserting a pair that
already exists updates the existing edge in place — overwriting annotation,
move and fullFEN only with non-empty values — never appending a second edge
for the pair and leaving every other edge untouched. -/
theorem addEdgeToGraph_no_duplicate_edges (g : GraphState) (hwf : WF g)
    (fs ts ann mv ff : String) :
    (∀ (i j : Nat) (ei ej : Edge), (addEdgeToGraph g fs ts ann mv ff).graphEdges[i]? = some ei →
        (addEdgeToGraph g fs ts ann mv ff).graphEdges[j]? = some ej →
        ei.«from» = ej.«from» → ei.«to» = ej.«to» → i = j) ∧
    (∀ (i : Nat) (e : Edge), g.graphEdges[i]? = some e →
        e.«from» = (addNodeToGraph g fs).1 →
        e.«to» = (addNodeToGraph (addNodeToGraph g fs).2 ts).1 →
        (addEdgeToGraph g fs ts ann mv ff).graphEdges.length = g.graphEdges.length ∧
        (addEdgeToGraph g fs ts ann mv ff).graphEdges[i]? = some (updatedEdge e ann mv ff) ∧
        ∀ j, j ≠ i → (addEdgeToGraph g fs ts ann mv ff).graphEdges[j]? = g.graphEdges[j]?) := by
  constructor
  · exact pairs_unique_of_WFedges _ (addEdgeToGraph_WFedges g fs ts ann mv ff hwf.2.1)
  · intro i e he hf ht
    have hedges : (addNodeToGraph (addNodeToGraph g fs).2 ts).2.graphEdges = g.graphEdges := by
      rw [addNodeToGraph_graphEdges, addNodeToGraph_graphEdges]
    have hwfe2 : WFedges (addNodeToGraph (addNodeToGraph g fs).2 ts).2 :=
      addNodeToGraph_WFedges _ ts (addNodeToGraph_WFedges g fs hwf.2.1)
    have he2 : (addNodeToGraph (addNodeToGraph g fs).2 ts).2.graphEdges[i]? = some e := by
      rw [hedges]
      exact he
    have hkey : mapGet (addNodeToGraph (addNodeToGraph g fs).2 ts).2.edgeMap
        (edgeKeyStr (addNodeToGraph g fs).1 (addNodeToGraph (addNodeToGraph g fs).2 ts).1)
        = some i :=
      (hwfe2 _ i).mpr ⟨e, he2, by rw [hf, ht]⟩
    unfold addEdgeToGraph
    rw [hkey]
    refine ⟨?_, ?_, ?_⟩
    · show (updateEdgeAt (addNodeToGraph (addNodeToGraph g fs).2 ts).2.graphEdges
        i ann mv ff).length = g.graphEdges.length
      rw [updateEdgeAt_length, hedges]
    · exact updateEdgeAt_getElem?_eq _ i ann mv ff e he2
    · intro j hj
      show (updateEdgeAt (addNodeToGraph (addNodeToGraph g fs).2 ts).2.graphEdges
        i ann mv ff)[j]? = g.graphEdges[j]?
      rw [updateEdgeAt_getElem?_ne _ i ann mv ff j (fun hh => hj hh.symm), hedges]

/-- Witness for C3 at the initial graph. -/
theorem addEdgeToGraph_no_duplicate_edges_witness :
    (∀ (i j : Nat) (ei ej : Edge),
        (addEdgeToGraph initialGraphState "start" "A" "" "" "").graphEdges[i]? = some ei →
        (addEdgeToGraph initialGraphState "start" "A" "" "" "").graphEdges[j]? = some ej →
        ei.«from» = ej.«from» → ei.«to» = ej.«to» → i = j) ∧
    (∀ (i : Nat) (e : Edge), initialGraphState.graphEdges[i]? = some e →
        e.«from» = (addNodeToGraph initialGraphState "start").1 →
        e.«to» = (addNodeToGraph (addNodeToGraph initialGraphState "start").2 "A").1 →
        (addEdgeToGraph initialGraphState "start" "A" "" "" "").graphEdges.length
          = initialGraphState.graphEdges.length ∧
        (addEdgeToGraph initialGraphState "start" "A" "" "" "").graphEdges[i]?
          = some (updatedEdge e "" "" "") ∧
        ∀ j, j ≠ i →
          (addEdgeToGraph initialGraphState "start" "A" "" "" "").graphEdges[j]?
            = initialGraphState.graphEdges[j]?) :=
  addEdgeToGraph_no_duplicate_edges initialGraphState WF_initialGraphState "start" "A" "" "" ""

/-- C2: two edge insertions whose target FENs share piece placement, side to
move and castling rights (first three FEN fields) but may differ in en
passant or move counters merge into exactly one node for that position, and
when the two source positions are distinct nodes the merged node has at least
two incoming edges, one from each source. -/
theorem transposition_merging (g : GraphState) (hwf : WF g)
    (s1 t1 s2 t2 ann1 mv1 ff1 ann2 mv2 ff2 : String)
    (p0 p1 p2 a3 a4 a5 b3 b4 b5 : String)
    (ht1 : jsSplit t1 ' ' = [p0, p1, p2, a3, a4, a5])
    (ht2 : jsSplit t2 ' ' = [p0, p1, p2, b3, b4, b5])
    (hsrc : nodeName s1 ≠ nodeName s2) :
    (addEdgeToGraph (addEdgeToGraph g s1 t1 ann1 mv1 ff1) s2 t2 ann2 mv2 ff2).graphNodes.count
      (nodeName t1) = 1 ∧
    ∃ (tIdx i1 i2 : Nat) (e1 e2 : Edge),
      mapGet (addEdgeToGraph (addEdgeToGraph g s1 t1 ann1 mv1 ff1)
        s2 t2 ann2 mv2 ff2).stateToIndex (nodeName t1) = some tIdx ∧
      i1 ≠ i2 ∧
      (addEdgeToGraph (addEdgeToGraph g s1 t1 ann1 mv1 ff1)
        s2 t2 ann2 mv2 ff2).graphEdges[i1]? = some e1 ∧
      (addEdgeToGraph (addEdgeToGraph g s1 t1 ann1 mv1 ff1)
        s2 t2 ann2 mv2 ff2).graphEdges[i2]? = some e2 ∧
      e1.«to» = tIdx ∧ e2.«to» = tIdx ∧ e1.«from» ≠ e2.«from» ∧
      (addEdgeToGraph (addEdgeToGraph g s1 t1 ann1 mv1 ff1)
        s2 t2 ann2 mv2 ff2).graphNodes[e1.«from»]? = some (nodeName s1) ∧
      (addEdgeToGraph (addEdgeToGraph g s1 t1 ann1 mv1 ff1)
        s2 t2 ann2 mv2 ff2).graphNodes[e2.«from»]? = some (nodeName s2) := by
  have hname : nodeName t1 = nodeName t2 := by
    unfold nodeName
    rw [normalizeFEN_six ht1, normalizeFEN_six ht2]
  have hwf1 : WF (addEdgeToGraph g s1 t1 ann1 mv1 ff1) :=
    addEdgeToGraph_WF g s1 t1 ann1 mv1 ff1 hwf
  have hwf2 : WF (addEdgeToGraph (addEdgeToGraph g s1 t1 ann1 mv1 ff1) s2 t2 ann2 mv2 ff2) :=
    addEdgeToGraph_WF _ s2 t2 ann2 mv2 ff2 hwf1
  obtain ⟨j1, e1, he1, hfe1, hte1⟩ :=
    addEdgeToGraph_edge_exists g s1 t1 ann1 mv1 ff1 hwf.1 hwf.2.1
  obtain ⟨e1b, he1b, hfb, htb⟩ :=
    addEdgeToGraph_pairs_preserved (addEdgeToGraph g s1 t1 ann1 mv1 ff1)
      s2 t2 ann2 mv2 ff2 j1 e1 he1
  have hfe1lt : e1.«from» < (addEdgeToGraph g s1 t1 ann1 mv1 ff1).graphNodes.length :=
    (List.getElem?_eq_some.mp hfe1).1
  have hte1lt : e1.«to» < (addEdgeToGraph g s1 t1 ann1 mv1 ff1).graphNodes.length :=
    (List.getElem?_eq_some.mp hte1).1
  have hfe1b : (addEdgeToGraph (addEdgeToGraph g s1 t1 ann1 mv1 ff1)
      s2 t2 ann2 mv2 ff2).graphNodes[e1b.«from»]? = some (nodeName s1) := by
    rw [hfb, addEdgeToGraph_nodes_getElem?_preserved _ s2 t2 ann2 mv2 ff2 _ hfe1lt]
    exact hfe1
  have hte1b : (addEdgeToGraph (addEdgeToGraph g s1 t1 ann1 mv1 ff1)
      s2 t2 ann2 mv2 ff2).graphNodes[e1b.«to»]? = some (nodeName t1) := by
    rw [htb, addEdgeToGraph_nodes_getElem?_preserved _ s2 t2 ann2 mv2 ff2 _ hte1lt]
    exact hte1
  obtain ⟨j2, e2, he2, hfe2, hte2⟩ :=
    addEdgeToGraph_edge_exists (addEdgeToGraph g s1 t1 ann1 mv1 ff1)
      s2 t2 ann2 mv2 ff2 hwf1.1 hwf1.2.1
  have hte2' : (addEdgeToGraph (addEdgeToGraph g s1 t1 ann1 mv1 ff1)
      s2 t2 ann2 mv2 ff2).graphNodes[e2.«to»]? = some (nodeName t1) := by
    rw [hname]
    exact hte2
  have hto_eq : e1b.«to» = e2.«to» := WFnodes_index_unique _ hwf2.1 hte1b hte2'
  have hfrom_ne : e1b.«from» ≠ e2.«from» := by
    intro hh
    rw [hh, hfe2] at hfe1b
    exact hsrc (Option.some.inj hfe1b).symm
  have hj_ne : j1 ≠ j2 := by
    intro hh
    rw [hh, he2] at he1b
    exact hfrom_ne (by rw [Option.some.inj he1b])
  constructor
  · exact List.count_eq_one_of_mem (WFnodes_nodup _ hwf2.1) (List.getElem?_mem hte1b)
  · exact ⟨e1b.«to», j1, j2, e1b, e2,
      (hwf2.1 (nodeName t1) e1b.«to»).mpr hte1b, hj_ne, he1b, he2, rfl,
      hto_eq.symm, hfrom_ne, hfe1b, hfe2⟩

/-- Witness for C2: after 1.d4 d5 2.Nf3 and 1.Nf3 d5 2.d4 the two target FENs
(differing en passant and counters) merge into one node with two incoming
edges. -/
theorem transposition_merging_witness :
    (addEdgeToGraph (addEdgeToGraph initialGraphState
      "rnbqkbnr/ppp1pppp/8/3p4/3P4/8/PPP1PPPP/RNBQKBNR w KQkq - 0 1"
      "rnbqkbnr/ppp1pppp/8/3p4/3P4/5N2/PPP1PPPP/RNBQKB1R b KQkq - 2 2" "" "" "")
      "rnbqkbnr/ppp1pppp/8/3p4/8/5N2/PPPPPPPP/RNBQKB1R w KQkq - 0 1"
      "rnbqkbnr/ppp1pppp/8/3p4/3P4/5N2/PPP1PPPP/RNBQKB1R b KQkq d3 0 2"
      "" "" "").graphNodes.count
      (nodeName "rnbqkbnr/ppp1pppp/8/3p4/3P4/5N2/PPP1PPPP/RNBQKB1R b KQkq - 2 2") = 1 ∧
    ∃ (tIdx i1 i2 : Nat) (e1 e2 : Edge),
      mapGet (addEdgeToGraph (addEdgeToGraph initialGraphState
        "rnbqkbnr/ppp1pppp/8/3p4/3P4/8/PPP1PPPP/RNBQKBNR w KQkq - 0 1"
        "rnbqkbnr/ppp1pppp/8/3p4/3P4/5N2/PPP1PPPP/RNBQKB1R b KQkq - 2 2" "" "" "")
        "rnbqkbnr/ppp1pppp/8/3p4/8/5N2/PPPPPPPP/RNBQKB1R w KQkq - 0 1"
        "rnbqkbnr/ppp1pppp/8/3p4/3P4/5N2/PPP1PPPP/RNBQKB1R b KQkq d3 0 2"
        "" "" "").stateToIndex
        (nodeName "rnbqkbnr/ppp1pppp/8/3p4/3P4/5N2/PPP1PPPP/RNBQKB1R b KQkq - 2 2")
        = some tIdx ∧
      i1 ≠ i2 ∧
      (addEdgeToGraph (addEdgeToGraph initialGraphState
        "rnbqkbnr/ppp1pppp/8/3p4/3P4/8/PPP1PPPP/RNBQKBNR w KQkq - 0 1"
        "rnbqkbnr/ppp1pppp/8/3p4/3P4/5N2/PPP1PPPP/RNBQKB1R b KQkq - 2 2" "" "" "")
        "rnbqkbnr/ppp1pppp/8/3p4/8/5N2/PPPPPPPP/RNBQKB1R w KQkq - 0 1"
        "rnbqkbnr/ppp1pppp/8/3p4/3P4/5N2/PPP1PPPP/RNBQKB1R b KQkq d3 0 2"
        "" "" "").graphEdges[i1]? = some e1 ∧
      (addEdgeToGraph (addEdgeToGraph initialGraphState
        "rnbqkbnr/ppp1pppp/8/3p4/3P4/8/PPP1PPPP/RNBQKBNR w KQkq - 0 1"
        "rnbqkbnr/ppp1pppp/8/3p4/3P4/5N2/PPP1PPPP/RNBQKB1R b KQkq - 2 2" "" "" "")
        "rnbqkbnr/ppp1pppp/8/3p4/8/5N2/PPPPPPPP/RNBQKB1R w KQkq - 0 1"
        "rnbqkbnr/ppp1pppp/8/3p4/3P4/5N2/PPP1PPPP/RNBQKB1R b KQkq d3 0 2"
        "" "" "").graphEdges[i2]? = some e2 ∧
      e1.«to» = tIdx ∧ e2.«to» = tIdx ∧ e1.«from» ≠ e2.«from» ∧
      (addEdgeToGraph (addEdgeToGraph initialGraphState
        "rnbqkbnr/ppp1pppp/8/3p4/3P4/8/PPP1PPPP/RNBQKBNR w KQkq - 0 1"
        "rnbqkbnr/ppp1pppp/8/3p4/3P4/5N2/PPP1PPPP/RNBQKB1R b KQkq - 2 2" "" "" "")
        "rnbqkbnr/ppp1pppp/8/3p4/8/5N2/PPPPPPPP/RNBQKB1R w KQkq - 0 1"
        "rnbqkbnr/ppp1pppp/8/3p4/3P4/5N2/PPP1PPPP/RNBQKB1R b KQkq d3 0 2"
        "" "" "").graphNodes[e1.«from»]?
        = some (nodeName "rnbqkbnr/ppp1pppp/8/3p4/3P4/8/PPP1PPPP/RNBQKBNR w KQkq - 0 1") ∧
      (addEdgeToGraph (addEdgeToGraph initialGraphState
        "rnbqkbnr/ppp1pppp/8/3p4/3P4/8/PPP1PPPP/RNBQKBNR w KQkq - 0 1"
        "rnbqkbnr/ppp1pppp/8/3p4/3P4/5N2/PPP1PPPP/RNBQKB1R b KQkq - 2 2" "" "" "")
        "rnbqkbnr/ppp1pppp/8/3p4/8/5N2/PPPPPPPP/RNBQKB1R w KQkq - 0 1"
        "rnbqkbnr/ppp1pppp/8/3p4/3P4/5N2/PPP1PPPP/RNBQKB1R b KQkq d3 0 2"
        "" "" "").graphNodes[e2.«from»]?
        = some (nodeName "rnbqkbnr/ppp1pppp/8/3p4/8/5N2/PPPPPPPP/RNBQKB1R w KQkq - 0 1") :=
  transposition_merging initialGraphState WF_initialGraphState
    "rnbqkbnr/ppp1pppp/8/3p4/3P4/8/PPP1PPPP/RNBQKBNR w KQkq - 0 1"
    "rnbqkbnr/ppp1pppp/8/3p4/3P4/5N2/PPP1PPPP/RNBQKB1R b KQkq - 2 2"
    "rnbqkbnr/ppp1pppp/8/3p4/8/5N2/PPPPPPPP/RNBQKB1R w KQkq - 0 1"
    "rnbqkbnr/ppp1pppp/8/3p4/3P4/5N2/PPP1PPPP/RNBQKB1R b KQkq d3 0 2"
    "" "" "" "" "" ""
    "rnbqkbnr/ppp1pppp/8/3p4/3P4/5N2/PPP1PPPP/RNBQKB1R" "b" "KQkq" "-" "2" "2"
    "d3" "0" "2"
    (by decide) (by decide) (by decide)

/-! ### Application state, `loadState` and `loadRoutesFromFile`

The remaining globals (`currentBoardState`, `moveHistory`, `historyIndex`,
`isNavigatingHistory`, `loadedTitle`, `precomputedPositions`,
`nodeEvaluations`) are threaded in `AppState`.  The chess.js engine and
`parseFloat` are external capabilities (`JsEnv`); board/DOM updates are
rendering and are omitted.  JS string primitives are modelled by structurally
recursive functions on the character list. -/

/-- JS `String.prototype.trim` (ASCII whitespace). -/
def jsTrim (s : String) : String :=
  String.mk (((s.data.dropWhile Char.isWhitespace).reverse.dropWhile Char.isWhitespace).reverse)

/-- JS `String.prototype.startsWith`. -/
def jsStartsWith (s pre : String) : Bool := pre.data.isPrefixOf s.data

/-- JS `s.indexOf(c) !== -1` for a single character. -/
def jsIncludesChar (s : String) (c : Char) : Bool := s.data.contains c

/-- JS `String.prototype.substring(n)`. -/
def jsDrop (s : String) (n : Nat) : String := String.mk (s.data.drop n)

/-- JS `line.split('->')`: greedy left-to-right split on the two-character
arrow separator. -/
def splitOnDashGt : List Char → List (List Char)
  | [] => [[]]
  | '-' :: '>' :: rest => [] :: splitOnDashGt rest
  | c :: rest =>
    match splitOnDashGt rest with
    | [] => [[c]]
    | h :: t => (c :: h) :: t

/-- `line.split('->')` at the `String` level. -/
def jsSplitArrow (s : String) : List String := (splitOnDashGt s.data).map String.mk

/-- JS `Array.prototype.join` with an arbitrary separator. -/
def joinWithSep (sep : List Char) : List (List Char) → List Char
  | [] => []
  | [x] => x
  | x :: xs => x ++ sep ++ joinWithSep sep xs

/-- `parts.join(sep)` at the `String` level. -/
def jsJoinWith (sep : String) (parts : List String) : String :=
  String.mk (joinWithSep sep.data (parts.map String.data))

/-- The non-graph globals of the source. -/
structure AppState where
  graph : GraphState
  currentBoardState : String
  moveHistory : List String
  historyIndex : Nat
  isNavigatingHistory : Bool
  loadedTitle : String
  precomputedPositions : List (String × String)
  nodeEvaluations : List (String × String)
deriving DecidableEq

/-- Initial global values (after `initCanvas` added the `'start'` node). -/
def initialAppState : AppState :=
  { graph := initialGraphState, currentBoardState := "start", moveHistory := ["start"],
    historyIndex := 0, isNavigatingHistory := false, loadedTitle := "",
    precomputedPositions := [], nodeEvaluations := [] }

/-- External capabilities: `new Chess(fen).move(san)` (the resulting FEN, or
`none` when the move is `null` or throws) and `!isNaN(parseFloat(s))`. -/
structure JsEnv where
  chessMove : String → String → Option String
  parseFloatValid : String → Bool

/-- `loadState`: loads a state onto the board (board/DOM updates omitted),
sets `currentBoardState` to the normalized state and, when
`addToHistoryFlag` is set and the session is not replaying history,
truncates `moveHistory` after `historyIndex` and appends the raw `state`. -/
def loadState (app : AppState) (state : String) (addToHistoryFlag : Bool) : AppState :=
  if addToHistoryFlag && !app.isNavigatingHistory then
    { app with
        currentBoardState := normalizeFEN state,
        moveHistory := app.moveHistory.take (app.historyIndex + 1) ++ [state],
        historyIndex := (app.moveHistory.take (app.historyIndex + 1) ++ [state]).length - 1 }
  else { app with currentBoardState := normalizeFEN state }

/-- The `{valid, error}` record returned by `validateState`. -/
structure ValidationResult where
  valid : Bool
  error : String
deriving DecidableEq

/-- The castling regex `^(-|[KQkq]{1,4})$` of `validateState`. -/
def castlingOK (s : String) : Bool :=
  s = "-" ||
    (decide (1 ≤ s.data.length) && decide (s.data.length ≤ 4) &&
      s.data.all (fun c => c = 'K' || c = 'Q' || c = 'k' || c = 'q'))

/-- The en-passant regex `^(-|[a-h][36])$` of `validateState`. -/
def enPassantOK (s : String) : Bool :=
  s = "-" ||
    (match s.data with
     | [f, r] => (decide ('a' ≤ f) && decide (f ≤ 'h')) && (r = '3' || r = '6')
     | _ => false)

/-- `validateState` from `fen-utils.js`. -/
def validateState (state : String) : ValidationResult :=
  if state = "start" then ⟨true, ""⟩
  else if (jsSplit state ' ').length ≠ 6 then
    ⟨false, "FEN must have 6 space-separated fields"⟩
  else if (jsSplit ((jsSplit state ' ').getD 0 "") '/').length ≠ 8 then
    ⟨false, "Piece placement must have 8 ranks"⟩
  else if (jsSplit state ' ').getD 1 "" ≠ "w" ∧ (jsSplit state ' ').getD 1 "" ≠ "b" then
    ⟨false, "Active color must be w or b"⟩
  else if ¬ castlingOK ((jsSplit state ' ').getD 2 "") then
    ⟨false, "Invalid castling rights"⟩
  else if ¬ enPassantOK ((jsSplit state ' ').getD 3 "") then
    ⟨false, "Invalid en passant square"⟩
  else ⟨true, ""⟩

/-- The mutable state of the `loadRoutesFromFile` parsing loop. -/
structure ParseState where
  graph : GraphState
  pendingComments : List String
  invalidCount : Nat
  positionCount : Nat
  precomputedPositions : List (String × String)
  nodeEvaluations : List (String × String)
deriving DecidableEq

/-- `arrowSplit[0].trim()` of a transition line. -/
def arrowFrom (line : String) : String := jsTrim ((jsSplitArrow line).getD 0 "")

/-- `arrowSplit[1].trim()` of a transition line. -/
def arrowTo (line : String) : String := jsTrim ((jsSplitArrow line).getD 1 "")

/-- The FEN handed to the engine: `START_FEN` when the source is `'start'`. -/
def moveSourceFen (line : String) : String :=
  if arrowFrom line = "start" then START_FEN else arrowFrom line

/-- The state part of a `state : x, y[, eval]` position line. -/
def colonState (line : String) : String := jsTrim ((jsSplit line ':').getD 0 "")

/-- The coordinate part of a position line (text after the first colon). -/
def colonCoords (line : String) : String :=
  jsTrim (jsJoinWith ":" ((jsSplit line ':').drop 1))

/-- The comma-separated coordinate fields of a position line. -/
def coordParts (line : String) : List String := jsSplit (colonCoords line) ','

/-- One iteration of the `loadRoutesFromFile` body loop.  Comment lines
accumulate; transition lines (`->`) insert an edge or bump `invalidCount`;
position lines (`:`) record a layout/evaluation entry outside Edit mode
(coordinates are kept as raw strings, their numeric validity checked through
the `parseFloat` capability; JS object-keyed assignment is modelled as list
append); anything else is ignored. -/
def processLine (env : JsEnv) (isEditMode : Bool) (ps : ParseState) (rawLine : String) :
    ParseState :=
  if (jsTrim rawLine).data.isEmpty then ps
  else if jsStartsWith (jsTrim rawLine) "#" then
    if 0 < (jsTrim (jsDrop (jsTrim rawLine) 1)).data.length then
      { ps with pendingComments := ps.pendingComments ++ [jsTrim (jsDrop (jsTrim rawLine) 1)] }
    else ps
  else if 2 ≤ (jsSplitArrow (jsTrim rawLine)).length then
    if (jsSplitArrow (jsTrim rawLine)).length = 2 then
      if (validateState (arrowFrom (jsTrim rawLine))).valid then
        if jsIncludesChar (arrowTo (jsTrim rawLine)) '/' ∨
            arrowTo (jsTrim rawLine) = "start" then
          if (validateState (normalizeFEN (arrowTo (jsTrim rawLine)))).valid then
            { ps with
                graph := addEdgeToGraph ps.graph
                  (normalizeFEN (arrowFrom (jsTrim rawLine)))
                  (normalizeFEN (arrowTo (jsTrim rawLine)))
                  (jsJoinWith " " ps.pendingComments) ""
                  (arrowFrom (jsTrim rawLine)),
                pendingComments := [] }
          else { ps with invalidCount := ps.invalidCount + 1, pendingComments := [] }
        else
          if (env.chessMove (moveSourceFen (jsTrim rawLine)) (arrowTo (jsTrim rawLine))).isNone
              then
            { ps with invalidCount := ps.invalidCount + 1, pendingComments := [] }
          else
            { ps with
                graph := addEdgeToGraph ps.graph
                  (normalizeFEN (moveSourceFen (jsTrim rawLine)))
                  (if ((env.chessMove (moveSourceFen (jsTrim rawLine))
                        (arrowTo (jsTrim rawLine))).getD "") = START_FEN then "start"
                   else normalizeFEN ((env.chessMove (moveSourceFen (jsTrim rawLine))
                        (arrowTo (jsTrim rawLine))).getD ""))
                  (jsJoinWith " " ps.pendingComments)
                  (arrowTo (jsTrim rawLine))
                  (moveSourceFen (jsTrim rawLine)),
                pendingComments := [] }
      else { ps with invalidCount := ps.invalidCount + 1, pendingComments := [] }
    else { ps with invalidCount := ps.invalidCount + 1, pendingComments := [] }
  else if jsIncludesChar (jsTrim rawLine) ':' then
    if isEditMode then { ps with pendingComments := [] }
    else if 2 ≤ (coordParts (jsTrim rawLine)).length then
      if env.parseFloatValid (jsTrim ((coordParts (jsTrim rawLine)).getD 0 "")) ∧
          env.parseFloatValid (jsTrim ((coordParts (jsTrim rawLine)).getD 1 "")) then
        if (validateState (colonState (jsTrim rawLine))).valid then
          { ps with
              pendingComments := [],
              precomputedPositions := ps.precomputedPositions ++
                [(colonState (jsTrim rawLine), colonCoords (jsTrim rawLine))],
              nodeEvaluations :=
                if 3 ≤ (coordParts (jsTrim rawLine)).length ∧
                    0 < (jsTrim ((coordParts (jsTrim rawLine)).getD 2 "")).data.length then
                  ps.nodeEvaluations ++
                    [(colonState (jsTrim rawLine),
                      jsTrim ((coordParts (jsTrim rawLine)).getD 2 ""))]
                else ps.nodeEvaluations,
              positionCount := ps.positionCount + 1 }
        else { ps with pendingComments := [] }
      else { ps with pendingComments := [] }
    else { ps with pendingComments := [] }
  else ps

/-- Whether a body line is counted in `invalidCount` by the loop: a
transition line with malformed arrow syntax, an invalid source state, an
invalid (legacy) target state, or a move token the engine rejects. -/
def lineInvalid (env : JsEnv) (rawLine : String) : Bool :=
  if (jsTrim rawLine).data.isEmpty then false
  else if jsStartsWith (jsTrim rawLine) "#" then false
  else if 2 ≤ (jsSplitArrow (jsTrim rawLine)).length then
    if (jsSplitArrow (jsTrim rawLine)).length = 2 then
      if (validateState (arrowFrom (jsTrim rawLine))).valid then
        if jsIncludesChar (arrowTo (jsTrim rawLine)) '/' ∨
            arrowTo (jsTrim rawLine) = "start" then
          if (validateState (normalizeFEN (arrowTo (jsTrim rawLine)))).valid then false
          else true
        else
          if (env.chessMove (moveSourceFen (jsTrim rawLine)) (arrowTo (jsTrim rawLine))).isNone
              then true
          else false
      else true
    else true
  else false

/-- Result of a load: either a fatal header error (with the `showError`
title and message from the source) or a completed load with its counters. -/
inductive LoadOutcome where
  | headerError (title message : String)
  | loaded (version : String) (invalidCount positionCount : Nat)
deriving DecidableEq

/-- The fresh parse state after the graph/history reset in
`loadRoutesFromFile`. -/
def initParseState : ParseState :=
  { graph := emptyGraphState, pendingComments := [], invalidCount := 0,
    positionCount := 0, precomputedPositions := [], nodeEvaluations := [] }

/-- Folding the body lines (from line index 2 on) through `processLine`. -/
def parseLines (env : JsEnv) (isEditMode : Bool) (lines : List String) : ParseState :=
  (lines.drop 2).foldl (processLine env isEditMode) initParseState

/-- `loadRoutesFromFile`.  The `lines.length === 0` check of the source is
dead (JS `split` never yields an empty array) and is omitted; header errors
return with all state untouched; otherwise the graph, history, title,
positions and evaluations are reset and the body lines are folded through
`processLine`. -/
def loadRoutesFromFile (env : JsEnv) (isEditMode : Bool) (app : AppState)
    (fileContent : String) : AppState × LoadOutcome :=
  if ¬ jsStartsWith (jsTrim ((jsSplit fileContent '\n').getD 0 "")) "v" then
    (app, LoadOutcome.headerError "Invalid File Format"
      "The file is missing a version header. Expected first line to start with v (e.g., v4.0)")
  else if jsTrim ((jsSplit fileContent '\n').getD 0 "") ≠ "v4.0" then
    (app, LoadOutcome.headerError "Unsupported Version"
      ("This file format version is not supported. Expected v4.0, but got "
        ++ jsTrim ((jsSplit fileContent '\n').getD 0 "")))
  else if ((jsSplit fileContent '\n').length < 2 ∨
      ¬ jsStartsWith (jsTrim ((jsSplit fileContent '\n').getD 1 "")) "=") then
    (app, LoadOutcome.headerError "Invalid File Format"
      "The file is missing a title line. Expected second line to start with = (e.g., = London System)")
  else
    ({ app with
        graph := (parseLines env isEditMode (jsSplit fileContent '\n')).graph,
        currentBoardState := "start",
        moveHistory := ["start"],
        historyIndex := 0,
        loadedTitle := jsTrim (jsDrop (jsTrim ((jsSplit fileContent '\n').getD 1 "")) 1),
        precomputedPositions :=
          (parseLines env isEditMode (jsSplit fileContent '\n')).precomputedPositions,
        nodeEvaluations :=
          (parseLines env isEditMode (jsSplit fileContent '\n')).nodeEvaluations },
      LoadOutcome.loaded (jsTrim ((jsSplit fileContent '\n').getD 0 ""))
        (parseLines env isEditMode (jsSplit fileContent '\n')).invalidCount
        (parseLines env isEditMode (jsSplit fileContent '\n')).positionCount)

/-- The `loadedFileLabel` message built after a successful load. -/
def loadSummaryMessage (loadedTitle filename version : String)
    (positionCount invalidCount : Nat) : String :=
  let message := "Loaded: " ++ (if loadedTitle ≠ "" then loadedTitle ++ " - " else "")
    ++ filename ++ " (" ++ version ++ ")"
  let message := if positionCount > 0 then
    message ++ " with " ++ toString positionCount ++ " positions" else message
  if invalidCount > 0 then
    message ++ " - " ++ toString invalidCount ++ " invalid lines skipped"
  else message

/-- A trivial environment for concrete witnesses: every move is illegal and
no coordinate parses. -/
def trivialJsEnv : JsEnv := ⟨fun _ _ => none, fun _ => false⟩

set_option maxHeartbeats 2000000 in
theorem processLine_invalidCount (env : JsEnv) (isEditMode : Bool) (ps : ParseState)
    (l : String) :
    (processLine env isEditMode ps l).invalidCount
      = ps.invalidCount + (if lineInvalid env l then 1 else 0) := by
  unfold processLine lineInvalid
  split_ifs
  all_goals try exact (by assumption : False).elim
  all_goals try exact ((by assumption : ¬ true = true) rfl).elim
  all_goals rfl

theorem foldl_processLine_invalidCount (env : JsEnv) (isEditMode : Bool)
    (ls : List String) (ps : ParseState) :
    (ls.foldl (processLine env isEditMode) ps).invalidCount
      = ps.invalidCount + ls.countP (fun l => lineInvalid env l) := by
  induction ls generalizing ps with
  | nil => simp
  | cons l t ih =>
    rw [List.foldl_cons, ih, List.countP_cons, processLine_invalidCount]
    by_cases h : lineInvalid env l = true
    · rw [if_pos h]
      omega
    · rw [if_neg h]
      omega

/-- C6: a file whose first (trimmed) line is not the version token `v4.0`,
or whose second line is missing or does not start with `=`, is rejected with
a descriptive header error and the whole application state — graph, lookup
maps and history included — is returned unchanged. -/
theorem loadRoutesFromFile_header_error (env : JsEnv) (isEditMode : Bool)
    (app : AppState) (fileContent : String)
    (h : jsTrim ((jsSplit fileContent '\n').getD 0 "") ≠ "v4.0" ∨
      (jsSplit fileContent '\n').length < 2 ∨
      ¬ jsStartsWith (jsTrim ((jsSplit fileContent '\n').getD 1 "")) "=") :
    (loadRoutesFromFile env isEditMode app fileContent).1 = app ∧
    ∃ title message, (loadRoutesFromFile env isEditMode app fileContent).2
      = LoadOutcome.headerError title message := by
  unfold loadRoutesFromFile
  by_cases h1 : jsStartsWith (jsTrim ((jsSplit fileContent '\n').getD 0 "")) "v" = true
  · rw [if_neg (not_not_intro h1)]
    by_cases h2 : jsTrim ((jsSplit fileContent '\n').getD 0 "") = "v4.0"
    · rw [if_neg (not_not_intro h2)]
      have h3 : (jsSplit fileContent '\n').length < 2 ∨
          ¬ jsStartsWith (jsTrim ((jsSplit fileContent '\n').getD 1 "")) "=" = true := by
        rcases h with h | h | h
        · exact absurd h2 h
        · exact Or.inl h
        · exact Or.inr h
      rw [if_pos h3]
      exact ⟨rfl, _, _, rfl⟩
    · rw [if_pos h2]
      exact ⟨rfl, _, _, rfl⟩
  · rw [if_pos h1]
    exact ⟨rfl, _, _, rfl⟩

/-- Witness for C6: a file whose first line is `hello` is rejected and the
initial application state is untouched. -/
theorem loadRoutesFromFile_header_error_witness :
    (loadRoutesFromFile trivialJsEnv false initialAppState "hello").1 = initialAppState ∧
    ∃ title message, (loadRoutesFromFile trivialJsEnv false initialAppState "hello").2
      = LoadOutcome.headerError title message :=
  loadRoutesFromFile_header_error trivialJsEnv false initialAppState "hello"
    (Or.inl (by decide))

/-- C7: with a valid header every body line is processed; each malformed
transition line (bad arrow syntax, invalid source state, invalid legacy
target state, or a move the engine rejects) is skipped and counted in
`invalidCount` without aborting the load, the outcome reports exactly that
count, and the load summary appends the skipped-line count whenever it is
positive. -/
theorem loadRoutesFromFile_skips_invalid_lines (env : JsEnv) (isEditMode : Bool)
    (app : AppState) (fileContent : String)
    (hv : jsTrim ((jsSplit fileContent '\n').getD 0 "") = "v4.0")
    (hlen : 2 ≤ (jsSplit fileContent '\n').length)
    (htitle : jsStartsWith (jsTrim ((jsSplit fileContent '\n').getD 1 "")) "=" = true) :
    (∃ pc : Nat, (loadRoutesFromFile env isEditMode app fileContent).2 =
      LoadOutcome.loaded "v4.0"
        (((jsSplit fileContent '\n').drop 2).countP (fun l => lineInvalid env l)) pc) ∧
    (∀ (title filename version : String) (pCount iCount : Nat), 0 < iCount →
      ∃ pre, loadSummaryMessage title filename version pCount iCount
        = pre ++ " - " ++ toString iCount ++ " invalid lines skipped") := by
  constructor
  · unfold loadRoutesFromFile
    rw [if_neg (not_not_intro (show jsStartsWith (jsTrim ((jsSplit fileContent '\n').getD 0 ""))
        "v" = true by rw [hv]; decide)),
      if_neg (not_not_intro hv),
      if_neg (not_or.mpr ⟨Nat.not_lt.mpr hlen, not_not_intro htitle⟩)]
    refine ⟨(parseLines env isEditMode (jsSplit fileContent '\n')).positionCount, ?_⟩
    show LoadOutcome.loaded (jsTrim ((jsSplit fileContent '\n').getD 0 ""))
        (parseLines env isEditMode (jsSplit fileContent '\n')).invalidCount
        (parseLines env isEditMode (jsSplit fileContent '\n')).positionCount = _
    rw [hv]
    have hcount : (parseLines env isEditMode (jsSplit fileContent '\n')).invalidCount
        = ((jsSplit fileContent '\n').drop 2).countP (fun l => lineInvalid env l) := by
      unfold parseLines
      rw [foldl_processLine_invalidCount]
      show 0 + _ = _
      omega
    rw [hcount]
  · intro title filename version pCount iCount hpos
    unfold loadSummaryMessage
    rw [if_pos hpos]
    exact ⟨_, rfl⟩

/-- Witness for C7: a header-valid file with one bad transition line loads
with that line counted, and the summary reports positive counts. -/
theorem loadRoutesFromFile_skips_invalid_lines_witness :
    (∃ pc : Nat,
      (loadRoutesFromFile trivialJsEnv false initialAppState "v4.0\n= Test\nx -> y").2 =
      LoadOutcome.loaded "v4.0"
        (((jsSplit "v4.0\n= Test\nx -> y" '\n').drop 2).countP
          (fun l => lineInvalid trivialJsEnv l)) pc) ∧
    (∀ (title filename version : String) (pCount iCount : Nat), 0 < iCount →
      ∃ pre, loadSummaryMessage title filename version pCount iCount
        = pre ++ " - " ++ toString iCount ++ " invalid lines skipped") :=
  loadRoutesFromFile_skips_invalid_lines trivialJsEnv false initialAppState
    "v4.0\n= Test\nx -> y" (by decide) (by decide) (by decide)

/-- C8: `loadState(key, true)` outside history replay truncates the history
to the first `historyIndex + 1` entries and appends `key`, leaving
`historyIndex` at the new last position; the initial history is `['start']`
at index 0; and a successful file load resets the history to that initial
state. -/
theorem history_visit_truncates_appends (app : AppState) (key : String)
    (hnav : app.isNavigatingHistory = false) :
    ((loadState app key true).moveHistory
        = app.moveHistory.take (app.historyIndex + 1) ++ [key] ∧
      (loadState app key true).historyIndex
        = (app.moveHistory.take (app.historyIndex + 1) ++ [key]).length - 1) ∧
    (initialAppState.moveHistory = ["start"] ∧ initialAppState.historyIndex = 0) ∧
    (∀ (env : JsEnv) (isEditMode : Bool) (fileContent : String),
      jsTrim ((jsSplit fileContent '\n').getD 0 "") = "v4.0" →
      2 ≤ (jsSplit fileContent '\n').length →
      jsStartsWith (jsTrim ((jsSplit fileContent '\n').getD 1 "")) "=" = true →
      (loadRoutesFromFile env isEditMode app fileContent).1.moveHistory = ["start"] ∧
      (loadRoutesFromFile env isEditMode app fileContent).1.historyIndex = 0) := by
  refine ⟨?_, ⟨rfl, rfl⟩, ?_⟩
  · unfold loadState
    rw [hnav]
    rw [if_pos (by decide : (true && !false) = true)]
    exact ⟨rfl, rfl⟩
  · intro env isEditMode fileContent hv hlen htitle
    unfold loadRoutesFromFile
    rw [if_neg (not_not_intro (show jsStartsWith (jsTrim ((jsSplit fileContent '\n').getD 0 ""))
        "v" = true by rw [hv]; decide)),
      if_neg (not_not_intro hv),
      if_neg (not_or.mpr ⟨Nat.not_lt.mpr hlen, not_not_intro htitle⟩)]
    exact ⟨rfl, rfl⟩

/-- Witness for C8 at the initial state and a concrete two-line file. -/
theorem history_visit_truncates_appends_witness :
    ((loadState initialAppState "k" true).moveHistory
        = initialAppState.moveHistory.take (initialAppState.historyIndex + 1) ++ ["k"] ∧
      (loadState initialAppState "k" true).historyIndex
        = (initialAppState.moveHistory.take (initialAppState.historyIndex + 1)
            ++ ["k"]).length - 1) ∧
    (initialAppState.moveHistory = ["start"] ∧ initialAppState.historyIndex = 0) ∧
    (∀ (env : JsEnv) (isEditMode : Bool) (fileContent : String),
      jsTrim ((jsSplit fileContent '\n').getD 0 "") = "v4.0" →
      2 ≤ (jsSplit fileContent '\n').length →
      jsStartsWith (jsTrim ((jsSplit fileContent '\n').getD 1 "")) "=" = true →
      (loadRoutesFromFile env isEditMode initialAppState fileContent).1.moveHistory
        = ["start"] ∧
      (loadRoutesFromFile env isEditMode initialAppState fileContent).1.historyIndex = 0) :=
  history_visit_truncates_appends initialAppState "k" rfl

/-! ### Orphan removal and future pruning -/

/-- The membership test `nodesWithEdges.has(j)` of `removeOrphanedNodes`:
`j` is the index `stateToIndex.get('start')` or an endpoint of some edge. -/
def hasEdgeNode (g : GraphState) (j : Nat) : Bool :=
  mapGet g.stateToIndex "start" = some j ||
    g.graphEdges.any (fun e => e.«from» = j || e.«to» = j)

/-- `nodesToRemove`, collected ascending and then reversed (the source
processes removals from highest index to lowest). -/
def nodesToRemove (g : GraphState) : List Nat :=
  ((List.range g.graphNodes.length).filter (fun j => ¬ hasEdgeNode g j)).reverse

/-- The reindexing loop `for (m = removeIndex; m < length; m++)
stateToIndex.set(graphNodes[m], m)`, generalized: bind each key of `ks` to
its position starting at `i`. -/
def setKeys (ks : List String) (i : Nat) (m : List (String × Nat)) : List (String × Nat) :=
  match ks with
  | [] => m
  | k :: rest => setKeys rest (i + 1) (mapSet m k i)

/-- The endpoint decrement applied to every edge after a node removal. -/
def shiftEdge (removeIndex : Nat) (e : Edge) : Edge :=
  { e with
      «from» := if removeIndex < e.«from» then e.«from» - 1 else e.«from»,
      «to» := if removeIndex < e.«to» then e.«to» - 1 else e.«to» }

/-- One iteration of the removal loop of `removeOrphanedNodes`: splice the
node out, delete its `stateToIndex` binding, reindex the tail, and decrement
edge endpoints above the removed index.  (`edgeMap` is rebuilt only once,
after the loop, as in the source.) -/
def removeOneNode (g : GraphState) (removeIndex : Nat) : GraphState :=
  { graphNodes := g.graphNodes.eraseIdx removeIndex,
    graphEdges := g.graphEdges.map (shiftEdge removeIndex),
    stateToIndex := setKeys ((g.graphNodes.eraseIdx removeIndex).drop removeIndex) removeIndex
      (mapDelete g.stateToIndex ((g.graphNodes[removeIndex]?).getD "")),
    edgeMap := g.edgeMap,
    lastEdgeIndex := g.lastEdgeIndex }

/-- Rebuilding `edgeMap` from scratch: `set(from + '-' + to, i)` for each
edge index `i`. -/
def rebuildEdgeMap (edges : List Edge) : List (String × Nat) :=
  setKeys (edges.map (fun e => edgeKeyStr e.«from» e.«to»)) 0 []

/-- `removeOrphanedNodes`: nodes that are neither the `'start'` index nor an
endpoint of any edge are spliced out (highest index first) and `edgeMap` is
rebuilt; when there is nothing to remove the function returns early without
touching anything. -/
def removeOrphanedNodes (g : GraphState) : GraphState :=
  if nodesToRemove g = [] then g
  else
    { (nodesToRemove g).foldl removeOneNode g with
        edgeMap := rebuildEdgeMap ((nodesToRemove g).foldl removeOneNode g).graphEdges }

/-- `removeFutureFromGraph`: drop every edge whose source is
`fromStateIndex`, rebuild `edgeMap`, then run orphan removal.  The BFS
`reachableFromStart` set computed by the source is dead code — it is never
read after being built — and therefore has no counterpart here. -/
def removeFutureFromGraph (g : GraphState) (fromStateIndex : Nat) : GraphState :=
  removeOrphanedNodes
    { g with
        graphEdges := g.graphEdges.filter (fun e => e.«from» ≠ fromStateIndex),
        edgeMap := rebuildEdgeMap (g.graphEdges.filter (fun e => e.«from» ≠ fromStateIndex)) }

/-- `b` is reachable from `a` by a directed path of at most `n` edges. -/
def reachableWithin (edges : List Edge) : Nat → Nat → Nat → Bool
  | 0, a, b => a = b
  | n + 1, a, b =>
    a = b || edges.any (fun e => e.«from» = a && reachableWithin edges n e.«to» b)

/-- `b` is reachable from `a` by some directed path over `edges`. -/
def ReachableFrom (edges : List Edge) (a b : Nat) : Prop :=
  ∃ n, reachableWithin edges n a b = true

theorem mem_iff_getElem?_str (l : List String) (a : String) :
    a ∈ l ↔ ∃ n : Nat, l[n]? = some a := by
  constructor
  · intro h
    rcases List.mem_iff_getElem.mp h with ⟨n, hn, he⟩
    exact ⟨n, by rw [List.getElem?_eq_getElem hn, he]⟩
  · rintro ⟨n, hn⟩
    exact List.getElem?_mem hn

theorem setKeys_not_mem (ks : List String) (i : Nat) (m : List (String × Nat))
    (k : String) (hk : k ∉ ks) :
    mapGet (setKeys ks i m) k = mapGet m k := by
  induction ks generalizing i m with
  | nil => rfl
  | cons hd rest ih =>
    have hne : ¬ hd = k := fun hh => hk (hh ▸ List.mem_cons_self _ _)
    rw [show setKeys (hd :: rest) i m = setKeys rest (i + 1) (mapSet m hd i) from rfl,
      ih (i + 1) _ (fun hh => hk (List.mem_cons_of_mem _ hh)), mapGet_mapSet,
      if_neg (fun hh : k = hd => hne hh.symm)]

theorem setKeys_mem (ks : List String) (i : Nat) (m : List (String × Nat))
    (k : String) (k0 : Nat) (hk : ks[k0]? = some k)
    (huniq : ∀ k1, ks[k1]? = some k → k1 = k0) :
    mapGet (setKeys ks i m) k = some (i + k0) := by
  induction ks generalizing i m k0 with
  | nil => exact absurd hk (by simp)
  | cons hd rest ih =>
    match k0 with
    | 0 =>
      obtain rfl : hd = k := Option.some.inj (by simpa using hk)
      have hnotmem : hd ∉ rest := by
        intro hmem
        rcases (mem_iff_getElem?_str rest hd).mp hmem with ⟨p, hp⟩
        have := huniq (p + 1) (by simpa using hp)
        omega
      rw [show setKeys (hd :: rest) i m = setKeys rest (i + 1) (mapSet m hd i) from rfl,
        setKeys_not_mem rest (i + 1) _ hd hnotmem, mapGet_mapSet, if_pos rfl]
      simp
    | p + 1 =>
      have hp : rest[p]? = some k := by simpa using hk
      have huniq2 : ∀ k1, rest[k1]? = some k → k1 = p := by
        intro k1 hk1
        have := huniq (k1 + 1) (by simpa using hk1)
        omega
      rw [show setKeys (hd :: rest) i m = setKeys rest (i + 1) (mapSet m hd i) from rfl,
        ih (i + 1) _ p hp huniq2]
      congr 1
      omega

/-- Pairwise-distinct edge keys. -/
def KeysDistinct (edges : List Edge) : Prop :=
  List.Pairwise
    (fun e1 e2 => edgeKeyStr e1.«from» e1.«to» ≠ edgeKeyStr e2.«from» e2.«to») edges

theorem KeysDistinct_of_WFedges (g : GraphState) (hwfe : WFedges g) :
    KeysDistinct g.graphEdges := by
  rw [KeysDistinct, List.pairwise_iff_getElem]
  intro i j hi hj hij heq
  have h1 := (hwfe (edgeKeyStr g.graphEdges[i].«from» g.graphEdges[i].«to») i).mpr
    ⟨g.graphEdges[i], List.getElem?_eq_getElem hi, rfl⟩
  have h2 := (hwfe (edgeKeyStr g.graphEdges[i].«from» g.graphEdges[i].«to») j).mpr
    ⟨g.graphEdges[j], List.getElem?_eq_getElem hj, heq.symm⟩
  rw [h1] at h2
  exact absurd (Option.some.inj h2) (by omega)

theorem KeysDistinct_filter (edges : List Edge) (p : Edge → Bool)
    (h : KeysDistinct edges) : KeysDistinct (edges.filter p) :=
  h.sublist (List.filter_sublist edges)

theorem mapGet_rebuildEdgeMap (edges : List Edge) (hkd : KeysDistinct edges) :
    ∀ k j, mapGet (rebuildEdgeMap edges) k = some j ↔
      ∃ e, edges[j]? = some e ∧ edgeKeyStr e.«from» e.«to» = k := by
  have hpair := List.pairwise_iff_getElem.mp hkd
  intro k j
  constructor
  · intro h
    by_cases hmem : k ∈ edges.map (fun e => edgeKeyStr e.«from» e.«to»)
    · rcases (mem_iff_getElem?_str _ k).mp hmem with ⟨p, hp⟩
      have huniq : ∀ q, (edges.map (fun e => edgeKeyStr e.«from» e.«to»))[q]? = some k → q = p := by
        intro q hq
        rw [List.getElem?_map] at hp hq
        rcases Option.map_eq_some'.mp hp with ⟨ep, hep, hkp⟩
        rcases Option.map_eq_some'.mp hq with ⟨eq_, heq_, hkq⟩
        by_contra hne
        have hple := (List.getElem?_eq_some.mp hep).1
        have hqle := (List.getElem?_eq_some.mp heq_).1
        rcases Nat.lt_or_ge q p with hlt | hge
        · have := hpair q p hqle hple hlt
          rw [List.getElem?_eq_getElem hqle] at heq_
          rw [List.getElem?_eq_getElem hple] at hep
          obtain rfl := Option.some.inj heq_
          obtain rfl := Option.some.inj hep
          exact this (hkq.trans hkp.symm)
        · have hlt2 : p < q := by omega
          have := hpair p q hple hqle hlt2
          rw [List.getElem?_eq_getElem hqle] at heq_
          rw [List.getElem?_eq_getElem hple] at hep
          obtain rfl := Option.some.inj heq_
          obtain rfl := Option.some.inj hep
          exact this (hkp.trans hkq.symm)
      rw [rebuildEdgeMap, setKeys_mem _ 0 [] k p hp huniq] at h
      obtain rfl : p = j := by
        have := Option.some.inj h
        omega
      rw [List.getElem?_map] at hp
      rcases Option.map_eq_some'.mp hp with ⟨e, he, hke⟩
      exact ⟨e, he, hke⟩
    · rw [rebuildEdgeMap, setKeys_not_mem _ 0 [] k hmem] at h
      exact absurd h (by simp [mapGet_nil])
  · rintro ⟨e, he, hke⟩
    have hp : (edges.map (fun e => edgeKeyStr e.«from» e.«to»))[j]? = some k := by
      rw [List.getElem?_map, he]
      simpa using hke
    have huniq : ∀ q, (edges.map (fun e => edgeKeyStr e.«from» e.«to»))[q]? = some k → q = j := by
      intro q hq
      rw [List.getElem?_map] at hq
      rcases Option.map_eq_some'.mp hq with ⟨eq_, heq_, hkq⟩
      by_contra hne
      have hqle := (List.getElem?_eq_some.mp heq_).1
      have hjle := (List.getElem?_eq_some.mp he).1
      rcases Nat.lt_or_ge q j with hlt | hge
      · have := hpair q j hqle hjle hlt
        rw [List.getElem?_eq_getElem hqle] at heq_
        rw [List.getElem?_eq_getElem hjle] at he
        obtain rfl := Option.some.inj heq_
        obtain rfl := Option.some.inj he
        exact this (hkq.trans hke.symm)
      · have hlt2 : j < q := by omega
        have := hpair j q hjle hqle hlt2
        rw [List.getElem?_eq_getElem hqle] at heq_
        rw [List.getElem?_eq_getElem hjle] at he
        obtain rfl := Option.some.inj heq_
        obtain rfl := Option.some.inj he
        exact this (hke.trans hkq.symm)
    rw [rebuildEdgeMap, setKeys_mem _ 0 [] k j hp huniq]
    simp

theorem removeOneNode_graphNodes_getElem? (g : GraphState) (r : Nat) (j : Nat) :
    (removeOneNode g r).graphNodes[j]? =
      if j < r then g.graphNodes[j]? else g.graphNodes[j + 1]? := by
  show (g.graphNodes.eraseIdx r)[j]? = _
  by_cases h : j < r
  · rw [if_pos h, List.getElem?_eraseIdx_of_lt g.graphNodes r j h]
  · rw [if_neg h, List.getElem?_eraseIdx_of_ge g.graphNodes r j (by omega)]

theorem removeOneNode_length (g : GraphState) (r : Nat) (hr : r < g.graphNodes.length) :
    (removeOneNode g r).graphNodes.length = g.graphNodes.length - 1 := by
  show (g.graphNodes.eraseIdx r).length = _
  exact List.length_eraseIdx_of_lt hr

theorem removeOneNode_graphEdges (g : GraphState) (r : Nat) :
    (removeOneNode g r).graphEdges = g.graphEdges.map (shiftEdge r) := rfl

theorem removeOneNode_WFnodes (g : GraphState) (r : Nat) (hwf : WFnodes g)
    (hr : r < g.graphNodes.length) : WFnodes (removeOneNode g r) := by
  obtain ⟨sr, hsr⟩ : ∃ sr, g.graphNodes[r]? = some sr := ⟨_, List.getElem?_eq_getElem hr⟩
  have hN' : ∀ jj : Nat, (g.graphNodes.eraseIdx r)[jj]? =
      if jj < r then g.graphNodes[jj]? else g.graphNodes[jj + 1]? := by
    intro jj
    by_cases h : jj < r
    · rw [if_pos h, List.getElem?_eraseIdx_of_lt g.graphNodes r jj h]
    · rw [if_neg h, List.getElem?_eraseIdx_of_ge g.graphNodes r jj (by omega)]
  have hks : ∀ p : Nat, ((g.graphNodes.eraseIdx r).drop r)[p]? =
      g.graphNodes[r + p + 1]? := by
    intro p
    rw [List.getElem?_drop, hN' (r + p), if_neg (by omega)]
  intro s j
  show mapGet (setKeys ((g.graphNodes.eraseIdx r).drop r) r
      (mapDelete g.stateToIndex ((g.graphNodes[r]?).getD ""))) s = some j ↔
    (g.graphNodes.eraseIdx r)[j]? = some s
  rw [show ((g.graphNodes[r]?).getD "") = sr from by rw [hsr]; rfl]
  by_cases hmem : s ∈ (g.graphNodes.eraseIdx r).drop r
  · rcases (mem_iff_getElem?_str _ s).mp hmem with ⟨p, hp⟩
    have hNp : g.graphNodes[r + p + 1]? = some s := by rw [← hks p]; exact hp
    have huniq : ∀ q, ((g.graphNodes.eraseIdx r).drop r)[q]? = some s → q = p := by
      intro q hq
      have hNq : g.graphNodes[r + q + 1]? = some s := by rw [← hks q]; exact hq
      have := WFnodes_index_unique g hwf hNq hNp
      omega
    rw [setKeys_mem _ r _ s p hp huniq]
    constructor
    · intro hh
      obtain rfl : r + p = j := Option.some.inj hh
      rw [hN' (r + p), if_neg (by omega)]
      exact hNp
    · intro hh
      rw [hN' j] at hh
      by_cases hj : j < r
      · rw [if_pos hj] at hh
        have := WFnodes_index_unique g hwf hh hNp
        omega
      · rw [if_neg hj] at hh
        have := WFnodes_index_unique g hwf hh hNp
        exact congrArg some (by omega)
  · rw [setKeys_not_mem _ r _ s hmem, mapGet_mapDelete]
    by_cases hs : s = sr
    · rw [if_pos hs]
      subst hs
      constructor
      · intro hh
        exact absurd hh (by simp)
      · intro hh
        rw [hN' j] at hh
        by_cases hj : j < r
        · rw [if_pos hj] at hh
          have := WFnodes_index_unique g hwf hh hsr
          omega
        · rw [if_neg hj] at hh
          have := WFnodes_index_unique g hwf hh hsr
          omega
    · rw [if_neg hs, hwf s j, hN' j]
      by_cases hj : j < r
      · rw [if_pos hj]
      · rw [if_neg hj]
        constructor
        · intro hh
          by_cases hjr : j = r
          · subst hjr
            rw [hsr] at hh
            exact absurd (Option.some.inj hh).symm hs
          · exfalso
            apply hmem
            rw [mem_iff_getElem?_str]
            refine ⟨j - r - 1, ?_⟩
            rw [hks (j - r - 1), show r + (j - r - 1) + 1 = j from by omega]
            exact hh
        · intro hh
          exfalso
          apply hmem
          rw [mem_iff_getElem?_str]
          refine ⟨j - r, ?_⟩
          rw [hks (j - r), show r + (j - r) + 1 = j + 1 from by omega]
          exact hh

theorem removeOneNode_WFrange (g : GraphState) (r : Nat) (hwfr : WFrange g)
    (hr : r < g.graphNodes.length)
    (hnoInc : ∀ e ∈ g.graphEdges, e.«from» ≠ r ∧ e.«to» ≠ r) :
    WFrange (removeOneNode g r) := by
  intro e' he'
  rw [removeOneNode_graphEdges] at he'
  rcases List.mem_map.mp he' with ⟨e, he, rfl⟩
  obtain ⟨h1f, h1t⟩ := hwfr e he
  obtain ⟨h2f, h2t⟩ := hnoInc e he
  rw [removeOneNode_length g r hr]
  simp only [shiftEdge]
  constructor <;> (split_ifs <;> omega)

theorem removeOneNode_KeysDistinct (g : GraphState) (r : Nat)
    (hkd : KeysDistinct g.graphEdges)
    (hnoInc : ∀ e ∈ g.graphEdges, e.«from» ≠ r ∧ e.«to» ≠ r) :
    KeysDistinct (removeOneNode g r).graphEdges := by
  rw [removeOneNode_graphEdges, KeysDistinct, List.pairwise_map]
  rw [KeysDistinct] at hkd
  refine hkd.imp_of_mem ?_
  intro e1 e2 h1 h2 hne heq
  obtain ⟨hf, ht⟩ := edgeKeyStr_inj heq
  obtain ⟨n1f, n1t⟩ := hnoInc e1 h1
  obtain ⟨n2f, n2t⟩ := hnoInc e2 h2
  apply hne
  have hfrom : e1.«from» = e2.«from» := by
    simp only [shiftEdge] at hf
    split_ifs at hf <;> omega
  have hto : e1.«to» = e2.«to» := by
    simp only [shiftEdge] at ht
    split_ifs at ht <;> omega
  rw [hfrom, hto]

/-- Invariant carried through the removal loop: the indices still to be
processed are strictly descending, in bounds, non-incident, not the root,
and every index outside the removal list is the root or edge-incident. -/
structure RemovalInv (g : GraphState) (l : List Nat) : Prop where
  wfn : WFnodes g
  wfr : WFrange g
  kd : KeysDistinct g.graphEdges
  desc : l.Pairwise (fun a b => b < a)
  bound : ∀ r ∈ l, r < g.graphNodes.length
  noInc : ∀ r ∈ l, ∀ e ∈ g.graphEdges, e.«from» ≠ r ∧ e.«to» ≠ r
  notStart : ∀ r ∈ l, g.graphNodes[r]? ≠ some "start"
  keep : ∀ j, j < g.graphNodes.length → j ∉ l →
    (g.graphNodes[j]? = some "start" ∨ ∃ e ∈ g.graphEdges, e.«from» = j ∨ e.«to» = j)

theorem RemovalInv_step (g : GraphState) (r : Nat) (l : List Nat)
    (inv : RemovalInv g (r :: l)) : RemovalInv (removeOneNode g r) l := by
  have hr : r < g.graphNodes.length := inv.bound r (List.mem_cons_self _ _)
  have hnoIncR : ∀ e ∈ g.graphEdges, e.«from» ≠ r ∧ e.«to» ≠ r :=
    inv.noInc r (List.mem_cons_self _ _)
  have hdesc_head : ∀ r' ∈ l, r' < r := (List.pairwise_cons.mp inv.desc).1
  refine ⟨removeOneNode_WFnodes g r inv.wfn hr,
    removeOneNode_WFrange g r inv.wfr hr hnoIncR,
    removeOneNode_KeysDistinct g r inv.kd hnoIncR,
    (List.pairwise_cons.mp inv.desc).2, ?_, ?_, ?_, ?_⟩
  · intro r' hm
    rw [removeOneNode_length g r hr]
    have h1 := hdesc_head r' hm
    omega
  · intro r' hm e' he'
    rw [removeOneNode_graphEdges] at he'
    rcases List.mem_map.mp he' with ⟨e, he, rfl⟩
    obtain ⟨hf, ht⟩ := inv.noInc r' (List.mem_cons_of_mem _ hm) e he
    have hrr : r' < r := hdesc_head r' hm
    simp only [shiftEdge]
    constructor
    · split_ifs <;> omega
    · split_ifs <;> omega
  · intro r' hm
    rw [removeOneNode_graphNodes_getElem? g r r', if_pos (hdesc_head r' hm)]
    exact inv.notStart r' (List.mem_cons_of_mem _ hm)
  · intro j hj hjl
    rw [removeOneNode_length g r hr] at hj
    by_cases hjr : j < r
    · have hokeep := inv.keep j (by omega) (by
        intro hmem
        rcases List.mem_cons.mp hmem with h1 | h1
        · omega
        · exact hjl h1)
      rcases hokeep with h1 | ⟨e, he, hend⟩
      · left
        rw [removeOneNode_graphNodes_getElem? g r j, if_pos hjr]
        exact h1
      · right
        refine ⟨shiftEdge r e, ?_, ?_⟩
        · rw [removeOneNode_graphEdges]
          exact List.mem_map_of_mem _ he
        · obtain ⟨hfne, htne⟩ := hnoIncR e he
          simp only [shiftEdge]
          rcases hend with h | h
          · left
            split_ifs <;> omega
          · right
            split_ifs <;> omega
    · have hokeep := inv.keep (j + 1) (by omega) (by
        intro hmem
        rcases List.mem_cons.mp hmem with h1 | h1
        · omega
        · have := hdesc_head (j + 1) h1
          omega)
      rcases hokeep with h1 | ⟨e, he, hend⟩
      · left
        rw [removeOneNode_graphNodes_getElem? g r j, if_neg hjr]
        exact h1
      · right
        refine ⟨shiftEdge r e, ?_, ?_⟩
        · rw [removeOneNode_graphEdges]
          exact List.mem_map_of_mem _ he
        · obtain ⟨hfne, htne⟩ := hnoIncR e he
          simp only [shiftEdge]
          rcases hend with h | h
          · left
            split_ifs <;> omega
          · right
            split_ifs <;> omega

theorem RemovalInv_foldl (l : List Nat) (g : GraphState) (inv : RemovalInv g l) :
    RemovalInv (l.foldl removeOneNode g) [] := by
  induction l generalizing g with
  | nil => exact inv
  | cons r t ih => exact ih _ (RemovalInv_step g r t inv)

theorem foldl_removeOneNode_start (l : List Nat) (g : GraphState) (inv : RemovalInv g l)
    (hs : ∃ j : Nat, g.graphNodes[j]? = some "start") :
    ∃ j : Nat, (l.foldl removeOneNode g).graphNodes[j]? = some "start" := by
  induction l generalizing g with
  | nil => exact hs
  | cons r t ih =>
    refine ih _ (RemovalInv_step g r t inv) ?_
    rcases hs with ⟨j, hj⟩
    have hjr : j ≠ r := by
      intro hh
      subst hh
      exact inv.notStart j (List.mem_cons_self _ _) hj
    by_cases hlt : j < r
    · exact ⟨j, by rw [removeOneNode_graphNodes_getElem? g r j, if_pos hlt]; exact hj⟩
    · refine ⟨j - 1, ?_⟩
      rw [removeOneNode_graphNodes_getElem? g r (j - 1), if_neg (by omega),
        show j - 1 + 1 = j from by omega]
      exact hj

theorem hasEdgeNode_iff (g : GraphState) (j : Nat) :
    hasEdgeNode g j = true ↔
      (mapGet g.stateToIndex "start" = some j ∨
        ∃ e ∈ g.graphEdges, e.«from» = j ∨ e.«to» = j) := by
  unfold hasEdgeNode
  simp [List.any_eq_true]

theorem mem_nodesToRemove (g : GraphState) (j : Nat) :
    j ∈ nodesToRemove g ↔ (j < g.graphNodes.length ∧ ¬ hasEdgeNode g j = true) := by
  unfold nodesToRemove
  rw [List.mem_reverse, List.mem_filter, List.mem_range]
  simp

theorem RemovalInv_initial (g : GraphState) (hwf : WF g) :
    RemovalInv g (nodesToRemove g) := by
  refine ⟨hwf.1, hwf.2.2, KeysDistinct_of_WFedges g hwf.2.1, ?_, ?_, ?_, ?_, ?_⟩
  · unfold nodesToRemove
    rw [List.pairwise_reverse]
    exact ((List.pairwise_lt_range _).filter _).imp (fun h => h)
  · intro r hm
    exact ((mem_nodesToRemove g r).mp hm).1
  · intro r hm e he
    have h2 := ((mem_nodesToRemove g r).mp hm).2
    rw [hasEdgeNode_iff g r] at h2
    push_neg at h2
    have h3 := h2.2 e he
    push_neg at h3
    exact h3
  · intro r hm
    have h2 := ((mem_nodesToRemove g r).mp hm).2
    rw [hasEdgeNode_iff g r] at h2
    push_neg at h2
    intro hstart
    exact h2.1 ((hwf.1 "start" r).mpr hstart)
  · intro j hj hjl
    have hhas : hasEdgeNode g j = true := by
      by_contra hc
      exact hjl ((mem_nodesToRemove g j).mpr ⟨hj, hc⟩)
    rw [hasEdgeNode_iff g j] at hhas
    rcases hhas with h1 | h2
    · left
      exact (hwf.1 "start" j).mp h1
    · right
      exact h2

theorem removeOrphanedNodes_WF (g : GraphState) (hwf : WF g) :
    WF (removeOrphanedNodes g) := by
  unfold removeOrphanedNodes
  by_cases h : nodesToRemove g = []
  · rw [if_pos h]
    exact hwf
  · rw [if_neg h]
    have inv := RemovalInv_foldl (nodesToRemove g) g (RemovalInv_initial g hwf)
    refine ⟨?_, ?_, ?_⟩
    · intro s j
      exact inv.wfn s j
    · intro k j
      exact mapGet_rebuildEdgeMap _ inv.kd k j
    · intro e he
      exact inv.wfr e he

theorem removeOrphanedNodes_keep (g : GraphState) (hwf : WF g) :
    ∀ j, j < (removeOrphanedNodes g).graphNodes.length →
      ((removeOrphanedNodes g).graphNodes[j]? = some "start" ∨
        ∃ e ∈ (removeOrphanedNodes g).graphEdges, e.«from» = j ∨ e.«to» = j) := by
  unfold removeOrphanedNodes
  by_cases h : nodesToRemove g = []
  · rw [if_pos h]
    intro j hj
    exact (RemovalInv_initial g hwf).keep j hj (by rw [h]; simp)
  · rw [if_neg h]
    intro j hj
    exact (RemovalInv_foldl (nodesToRemove g) g (RemovalInv_initial g hwf)).keep j hj
      (by simp)

theorem removeOrphanedNodes_start (g : GraphState) (hwf : WF g)
    (hs : ∃ j : Nat, g.graphNodes[j]? = some "start") :
    ∃ j : Nat, (removeOrphanedNodes g).graphNodes[j]? = some "start" := by
  unfold removeOrphanedNodes
  by_cases h : nodesToRemove g = []
  · rw [if_pos h]
    exact hs
  · rw [if_neg h]
    exact foldl_removeOneNode_start (nodesToRemove g) g (RemovalInv_initial g hwf) hs

theorem removeFutureFromGraph_WF_mid (g : GraphState) (X : Nat) (hwf : WF g) :
    WF { g with
        graphEdges := g.graphEdges.filter (fun e => e.«from» ≠ X),
        edgeMap := rebuildEdgeMap (g.graphEdges.filter (fun e => e.«from» ≠ X)) } := by
  refine ⟨?_, ?_, ?_⟩
  · intro s j
    exact hwf.1 s j
  · intro k j
    exact mapGet_rebuildEdgeMap _
      (KeysDistinct_filter _ _ (KeysDistinct_of_WFedges g hwf.2.1)) k j
  · intro e he
    exact hwf.2.2 e (List.mem_of_mem_filter he)

theorem removeFutureFromGraph_WF (g : GraphState) (X : Nat) (hwf : WF g) :
    WF (removeFutureFromGraph g X) :=
  removeOrphanedNodes_WF _ (removeFutureFromGraph_WF_mid g X hwf)

theorem removeFutureFromGraph_keep (g : GraphState) (X : Nat) (hwf : WF g) :
    ∀ j, j < (removeFutureFromGraph g X).graphNodes.length →
      ((removeFutureFromGraph g X).graphNodes[j]? = some "start" ∨
        ∃ e ∈ (removeFutureFromGraph g X).graphEdges, e.«from» = j ∨ e.«to» = j) :=
  removeOrphanedNodes_keep _ (removeFutureFromGraph_WF_mid g X hwf)

theorem removeFutureFromGraph_start (g : GraphState) (X : Nat) (hwf : WF g)
    (hs : ∃ j : Nat, g.graphNodes[j]? = some "start") :
    ∃ j : Nat, (removeFutureFromGraph g X).graphNodes[j]? = some "start" :=
  removeOrphanedNodes_start _ (removeFutureFromGraph_WF_mid g X hwf) hs

/-- C9: every public graph mutation — `addNodeToGraph`, `addEdgeToGraph`,
`removeOrphanedNodes` and `removeFutureFromGraph` — leaves the lookup
indices fully consistent before returning: `stateToIndex` holds exactly the
bindings `graphNodes[i] -> i`, `edgeMap` holds exactly the bindings
`from + '-' + to -> edge index`, and every edge endpoint is a valid node
index. -/
theorem mutations_preserve_index_consistency (g : GraphState) (hwf : WF g)
    (s fs ts ann mv ff : String) (X : Nat) :
    WF (addNodeToGraph g s).2 ∧ WF (addEdgeToGraph g fs ts ann mv ff) ∧
    WF (removeOrphanedNodes g) ∧ WF (removeFutureFromGraph g X) :=
  ⟨addNodeToGraph_WF g s hwf, addEdgeToGraph_WF g fs ts ann mv ff hwf,
   removeOrphanedNodes_WF g hwf, removeFutureFromGraph_WF g X hwf⟩

/-- Witness for C9 at the initial graph. -/
theorem mutations_preserve_index_consistency_witness :
    WF (addNodeToGraph initialGraphState "A").2 ∧
    WF (addEdgeToGraph initialGraphState "start" "A" "" "" "") ∧
    WF (removeOrphanedNodes initialGraphState) ∧
    WF (removeFutureFromGraph initialGraphState 0) :=
  mutations_preserve_index_consistency initialGraphState WF_initialGraphState
    "A" "start" "A" "" "" "" 0

/-- The position after 1.e4 (normalized). -/
def fenA : String := "rnbqkbnr/pppppppp/8/8/4P3/8/PPPP1PPP/RNBQKBNR b KQkq - 0 1"

/-- The position after 1.e4 e5 (normalized). -/
def fenB : String := "rnbqkbnr/pppp1ppp/8/4p3/4P3/8/PPPP1PPP/RNBQKBNR w KQkq - 0 1"

/-- The position after 1.e4 e5 2.Nf3 (normalized). -/
def fenC : String := "rnbqkbnr/pppp1ppp/8/4p3/4P3/5N2/PPPP1PPP/RNBQKB1R b KQkq - 0 1"

/-- A concrete session graph built by `addEdgeToGraph` calls:
`start -> A -> B -> C` (nodes 0,1,2,3). -/
def gC1 : GraphState :=
  addEdgeToGraph (addEdgeToGraph (addEdgeToGraph initialGraphState "start" fenA "" "" "")
    fenA fenB "" "" "") fenB fenC "" "" ""

theorem WF_gC1 : WF gC1 :=
  addEdgeToGraph_WF _ fenB fenC "" "" ""
    (addEdgeToGraph_WF _ fenA fenB "" "" ""
      (addEdgeToGraph_WF _ "start" fenA "" "" "" WF_initialGraphState))

theorem cex_aux : ∀ n,
    reachableWithin [⟨0, 1, "", "", ""⟩, ⟨2, 3, "", "", ""⟩] n 0 2 = false ∧
    reachableWithin [⟨0, 1, "", "", ""⟩, ⟨2, 3, "", "", ""⟩] n 1 2 = false := by
  intro n
  induction n with
  | zero => exact ⟨rfl, rfl⟩
  | succ n ih =>
    constructor
    · simp [reachableWithin, List.any_cons, ih.1, ih.2]
    · simp [reachableWithin, List.any_cons, ih.1, ih.2]

/-- Counterexample to C1 as stated: in the session graph
`start -> A -> B -> C`, pruning the future of node A (index 1) removes only
the edge `A -> B`; nodes B (index 2) and C (index 3) keep the edge
`B -> C` between them, so neither is removed, yet node 2 is no longer
reachable from the root index 0 by any directed path of remaining edges.
Orphan removal tests edge-incidence, not reachability — the BFS set built in
`removeFutureFromGraph` is dead code. -/
theorem removeFutureFromGraph_reachability_cex :
    2 < (removeFutureFromGraph gC1 1).graphNodes.length ∧
    mapGet (removeFutureFromGraph gC1 1).stateToIndex "start" = some 0 ∧
    ¬ ReachableFrom (removeFutureFromGraph gC1 1).graphEdges 0 2 := by
  refine ⟨by decide, by decide, ?_⟩
  rintro ⟨n, hn⟩
  have hE : (removeFutureFromGraph gC1 1).graphEdges =
      [⟨0, 1, "", "", ""⟩, ⟨2, 3, "", "", ""⟩] := by decide
  rw [hE] at hn
  rw [(cex_aux n).1] at hn
  exact absurd hn (by simp)

/-- C1 (amended): after `removeFutureFromGraph(X)` on a consistent graph
containing the root, the root node always remains present, and every
remaining node either is the root `'start'` or is incident to at least one
remaining edge — `removeOrphanedNodes` removes exactly the edge-less
non-root nodes.  (Reachability from the root is not guaranteed; see the
counterexample.) -/
theorem removeFutureFromGraph_orphans (g : GraphState) (X : Nat) (hwf : WF g)
    (hs : ∃ j : Nat, g.graphNodes[j]? = some "start") :
    (∃ j : Nat, (removeFutureFromGraph g X).graphNodes[j]? = some "start") ∧
    ∀ j, j < (removeFutureFromGraph g X).graphNodes.length →
      ((removeFutureFromGraph g X).graphNodes[j]? = some "start" ∨
        ∃ e ∈ (removeFutureFromGraph g X).graphEdges, e.«from» = j ∨ e.«to» = j) :=
  ⟨removeFutureFromGraph_start g X hwf hs, removeFutureFromGraph_keep g X hwf⟩

/-- Witness for the amended C1 on the concrete session graph. -/
theorem removeFutureFromGraph_orphans_witness :
    (∃ j : Nat, (removeFutureFromGraph gC1 1).graphNodes[j]? = some "start") ∧
    ∀ j, j < (removeFutureFromGraph gC1 1).graphNodes.length →
      ((removeFutureFromGraph gC1 1).graphNodes[j]? = some "start" ∨
        ∃ e ∈ (removeFutureFromGraph gC1 1).graphEdges, e.«from» = j ∨ e.«to» = j) :=
  removeFutureFromGraph_orphans gC1 1 WF_gC1 ⟨0, by decide⟩

end ChessOpenings
